import Mathlib

/-!
Terminal tic-tac-toe (`tictactoe.cpp`): embedding and verified properties.

The program keeps a `piece board[9]` that is indexed only through the
`position` enumeration.  Standard input is a list of lines (what
`std::getline` hands out, one per call) and standard output is a list of
`Event`s, one per group of `std::cout` statements of the source.
-/

namespace TicTacToe

/-! ## Data model -/

/-- The enum `position` (source line 29): `a1 = 0`, ..., `c3 = 8`. -/
inductive position
  | a1 | a2 | a3 | b1 | b2 | b3 | c1 | c2 | c3
  deriving DecidableEq, Repr

/-- The integer value of a `position` enumerator. -/
def position.toNat : position → Nat
  | .a1 => 0 | .a2 => 1 | .a3 => 2
  | .b1 => 3 | .b2 => 4 | .b3 => 5
  | .c1 => 6 | .c2 => 7 | .c3 => 8

/-- The enum `piece` (source line 33): blank, the two marks, and the two
highlighted marks of a winning sequence. -/
inductive piece
  | B | O | X | OW | XW
  deriving DecidableEq, Repr

/-- The array `piece board[9]`, one field per `position`. -/
structure Board where
  a1 : piece
  a2 : piece
  a3 : piece
  b1 : piece
  b2 : piece
  b3 : piece
  c1 : piece
  c2 : piece
  c3 : piece
  deriving DecidableEq, Repr

/-- The read `board[p]`. -/
def Board.get (board : Board) : position → piece
  | .a1 => board.a1 | .a2 => board.a2 | .a3 => board.a3
  | .b1 => board.b1 | .b2 => board.b2 | .b3 => board.b3
  | .c1 => board.c1 | .c2 => board.c2 | .c3 => board.c3

/-- The write `board[p] = v`. -/
def Board.set (board : Board) (p : position) (v : piece) : Board :=
  match p with
  | .a1 => { board with a1 := v }
  | .a2 => { board with a2 := v }
  | .a3 => { board with a3 := v }
  | .b1 => { board with b1 := v }
  | .b2 => { board with b2 := v }
  | .b3 => { board with b3 := v }
  | .c1 => { board with c1 := v }
  | .c2 => { board with c2 := v }
  | .c3 => { board with c3 := v }

/-- The initialiser `{B, B, B, B, B, B, B, B, B}` of `main` (source line 80). -/
def emptyBoard : Board :=
  ⟨.B, .B, .B, .B, .B, .B, .B, .B, .B⟩

/-! ## `check_winner` (source lines 283-316) -/

/-- The table `win_combinations[8][3]` (source lines 289-298). -/
def win_combinations : List (position × position × position) :=
  [ (.a1, .a2, .a3),   -- top row
    (.b1, .b2, .b3),   -- middle row
    (.c1, .c2, .c3),   -- bottom row
    (.a1, .b1, .c1),   -- left column
    (.a2, .b2, .c2),   -- middle column
    (.a3, .b3, .c3),   -- right column
    (.a1, .b2, .c3),   -- diagonal (top-left to bottom-right)
    (.a3, .b2, .c1) ]  -- diagonal (top-right to bottom-left)

/-- The loop `for (i = 0; i < 8 && !win; ++i)` of `check_winner`, run over the
combinations that are still to be visited; `cp` is the current piece and `wp`
the piece that replaces it. -/
def check_loop (cp wp : piece) :
    List (position × position × position) → Board → Bool → Board × Bool
  | [], board, win => (board, win)
  | combo :: rest, board, win =>
    if win then (board, win)
    else if board.get combo.1 = cp ∧ board.get combo.2.1 = cp ∧ board.get combo.2.2 = cp then
      check_loop cp wp rest
        (((board.set combo.1 wp).set combo.2.1 wp).set combo.2.2 wp) true
    else check_loop cp wp rest board win

/-- The function `check_winner(board, x_turn)`: the board after the call and
the returned flag. -/
def check_winner (board : Board) (x_turn : Bool) : Board × Bool :=
  let cp := if x_turn then piece.X else piece.O
  let wp := if x_turn then piece.XW else piece.OW
  check_loop cp wp win_combinations board false

/-! ## Terminal input and output -/

/-- What the program writes to `std::cout` and reads from `std::cin`, one
constructor per group of statements of the source. -/
inductive Event
  /-- The escape sequence that clears the screen (lines 115, 165, 321). -/
  | clear
  /-- The text `ERROR! Bad response given.` (line 167). -/
  | errBad
  /-- The text `ERROR! That position is already filled.` (line 170). -/
  | errTaken
  /-- The call `print_board(board)` (lines 175, 331). -/
  | printBoard (board : Board)
  /-- The turn prompt naming the player to move (lines 178-182). -/
  | turnPrompt (x_turn : Bool)
  /-- The banner `X WINS!!!` or `O WINS!!!` (lines 325-326). -/
  | wins (x_turn : Bool)
  /-- The banner `TIE GAME!` (line 328). -/
  | tie
  /-- The end-of-round prompt to quit or continue (line 335). -/
  | continuePrompt
  /-- A call `std::getline(std::cin, response)` and the response it left. -/
  | getline (response : String)
  deriving DecidableEq, Repr

/-- How a call that reads input ends: it returns a result together with the
input lines not yet read and everything written so far, or it never returns
because the input ended inside the turn prompt loop (a failed `getline` leaves
the response empty, a bad response, so that loop spins), or the round budget
of `game_loop` is used up. -/
inductive Run (α : Type)
  | done (result : α) (input : List String) (output : List Event)
  | starved (output : List Event)
  | fuel (output : List Event)
  deriving DecidableEq, Repr

/-! ## `prompt_input` (source lines 152-281) -/

/-- The locals of `prompt_input` (lines 153-160); `pos` is declared without a
value. -/
structure PromptVars where
  exit_status : Nat
  good_response : Bool
  bad_response : Bool
  already_taken : Bool
  pos : Option position
  deriving DecidableEq, Repr

/-- The values the locals of `prompt_input` start with. -/
def PromptVars.init : PromptVars :=
  { exit_status := 0, good_response := false, bad_response := false,
    already_taken := false, pos := none }

/-- The piece `(x_turn)?X:O` (lines 158, 284). -/
def players_piece (x_turn : Bool) : piece :=
  if x_turn then piece.X else piece.O

/-- The piece `(x_turn)?XW:OW` (line 285). -/
def winning_piece (x_turn : Bool) : piece :=
  if x_turn then piece.XW else piece.OW

/-- The error message and flag reset at the top of the loop body
(lines 165-172), then the board and the prompt (lines 175-182). -/
def show_turn (board : Board) (x_turn : Bool) (s : PromptVars) : List Event :=
  [Event.clear]
    ++ (if s.bad_response then [Event.errBad]
        else if s.already_taken then [Event.errTaken] else [])
    ++ [Event.printBoard board, Event.turnPrompt x_turn]

/-- The flag resets of lines 168 and 171. -/
def reset_flags (s : PromptVars) : PromptVars :=
  if s.bad_response then { s with bad_response := false }
  else if s.already_taken then { s with already_taken := false }
  else s

/-- The body shared by the nine cell branches (for instance lines 191-194). -/
def choose (board : Board) (p : position) (s : PromptVars) : PromptVars :=
  if board.get p = piece.B then { s with pos := some p, good_response := true }
  else { s with already_taken := true }

/-- The chain of comparisons on `response` (lines 190-265). -/
def dispatch (board : Board) (response : String) (s : PromptVars) : PromptVars :=
  if response = "A1" ∨ response = "a1" then choose board .a1 s
  else if response = "A2" ∨ response = "a2" then choose board .a2 s
  else if response = "A3" ∨ response = "a3" then choose board .a3 s
  else if response = "B1" ∨ response = "b1" then choose board .b1 s
  else if response = "B2" ∨ response = "b2" then choose board .b2 s
  else if response = "B3" ∨ response = "b3" then choose board .b3 s
  else if response = "C1" ∨ response = "c1" then choose board .c1 s
  else if response = "C2" ∨ response = "c2" then choose board .c2 s
  else if response = "C3" ∨ response = "c3" then choose board .c3 s
  else if response = "q" ∨ response = "Q" then
    { s with exit_status := 2, good_response := true }
  else if response = "r" ∨ response = "R" then
    { s with exit_status := 1, good_response := true }
  else { s with bad_response := true }

/-- The tail of `prompt_input` (lines 268-280): place the piece, ask
`check_winner`, and return the exit status with the board as it is left. -/
def place (board : Board) (x_turn : Bool) (s : PromptVars) : Nat × Board :=
  if s.exit_status = 0 then
    let board1 :=
      match s.pos with
      | some p => board.set p (players_piece x_turn)
      | none => board
    let r := check_winner board1 x_turn
    if r.2 then (3, r.1) else (s.exit_status, r.1)
  else (s.exit_status, board)

/-- The loop `while (!good_response)` of `prompt_input` followed by the tail
of the function, from the loop state `s`. -/
def prompt_loop (board : Board) (x_turn : Bool) :
    List String → PromptVars → List Event → Run (Nat × Board)
  | input, s, output =>
    if s.good_response then Run.done (place board x_turn s) input output
    else
      match input with
      | [] => Run.starved (output ++ show_turn board x_turn s)
      | response :: rest =>
        prompt_loop board x_turn rest (dispatch board response (reset_flags s))
          (output ++ show_turn board x_turn s ++ [Event.getline response])

/-- The function `prompt_input(board, x_turn)`: the exit status and the board
after the call. -/
def prompt_input (board : Board) (x_turn : Bool) (input : List String)
    (output : List Event) : Run (Nat × Board) :=
  prompt_loop board x_turn input PromptVars.init output

/-! ## `end_game_prompt` (source lines 318-341) -/

/-- The call `std::getline(std::cin, response)` on a fresh `response`: the next
line, or the empty string when the input has ended. -/
def getline : List String → String × List String
  | [] => ("", [])
  | response :: rest => (response, rest)

/-- The function `end_game_prompt(board, winner, x_turn)`: the returned flag,
the input left and the output. -/
def end_game_prompt (board : Board) (winner x_turn : Bool) (input : List String)
    (output : List Event) : Bool × List String × List Event :=
  let heading := if winner then Event.wins x_turn else Event.tie
  let r := getline input
  let still_playing := if r.1 = "q" ∨ r.1 = "Q" then false else true
  (still_playing, r.2,
    output ++ [Event.clear, heading, Event.printBoard board, Event.continuePrompt,
      Event.getline r.1])

/-! ## `main` (source lines 74-118) -/

/-- The variables of `main` that the round loop reads and writes. -/
structure RoundVars where
  board : Board
  x_turn : Bool
  round_active : Bool
  winner : Bool
  game_active : Bool
  deriving DecidableEq, Repr

/-- The `switch` on the value of `prompt_input` (lines 88-103). -/
def on_status (status : Nat) (v : RoundVars) : RoundVars :=
  match status with
  | 0 => v
  | 1 => { v with round_active := false }
  | 2 => { v with game_active := false, round_active := false }
  | 3 => { v with round_active := false, winner := true }
  | _ => v

/-- The body of the `for` loop of `main` for loop index `i` (lines 87-110). -/
def turn (i : Nat) (v : RoundVars) (input : List String) (output : List Event) :
    Run RoundVars :=
  match prompt_input v.board v.x_turn input output with
  | Run.starved out => Run.starved out
  | Run.fuel out => Run.fuel out
  | Run.done r input1 output1 =>
    let v1 := on_status r.1 { v with board := r.2 }
    if v1.winner ∨ i = 8 then
      let e := end_game_prompt v1.board v1.winner v1.x_turn input1 output1
      Run.done { v1 with game_active := e.1 } e.2.1 e.2.2
    else Run.done { v1 with x_turn := !v1.x_turn } input1 output1

/-- The loop `for (int i = 0; i < 9 && round_active; ++i)` of `main`, run over
the indices that are still to be visited. -/
def round_loop : List Nat → RoundVars → List String → List Event → Run RoundVars
  | [], v, input, output => Run.done v input output
  | i :: rest, v, input, output =>
    if v.round_active then
      match turn i v input output with
      | Run.starved out => Run.starved out
      | Run.fuel out => Run.fuel out
      | Run.done v1 input1 output1 => round_loop rest v1 input1 output1
    else Run.done v input output

/-- The variables as set at the top of the `while` body (lines 80-83). -/
def new_round (game_active : Bool) : RoundVars :=
  { board := emptyBoard, x_turn := false, round_active := true, winner := false,
    game_active := game_active }

/-- One pass of the `while` body: a whole round, from the empty board. -/
def round (game_active : Bool) (input : List String) (output : List Event) :
    Run RoundVars :=
  round_loop [0, 1, 2, 3, 4, 5, 6, 7, 8] (new_round game_active) input output

/-- The loop `while (game_active)` of `main`, for at most `n` rounds. -/
def game_loop : Nat → Bool → List String → List Event → Run Unit
  | n, game_active, input, output =>
    if game_active then
      match n with
      | 0 => Run.fuel output
      | n + 1 =>
        match round game_active input output with
        | Run.starved out => Run.starved out
        | Run.fuel out => Run.fuel out
        | Run.done v input1 output1 => game_loop n v.game_active input1 output1
    else Run.done () input output

/-- The function `main`: the game loop, the last screen clear (line 115) and
the return value.  Every round reads at least one line, so one round more than
there are input lines is budget enough. -/
def main (input : List String) : Run Nat :=
  match game_loop (input.length + 1) true input [] with
  | Run.starved out => Run.starved out
  | Run.fuel out => Run.fuel out
  | Run.done _ input1 output1 => Run.done 0 input1 (output1 ++ [Event.clear])

/-! ## Vocabulary of the properties -/

/-- All three cells of `combo` hold the piece `cp`. -/
def holds (board : Board) (cp : piece) (combo : position × position × position) : Prop :=
  board.get combo.1 = cp ∧ board.get combo.2.1 = cp ∧ board.get combo.2.2 = cp

instance (board : Board) (cp : piece) (combo : position × position × position) :
    Decidable (holds board cp combo) := by
  unfold holds; infer_instance

/-- The cell `p` is one of the three cells of `combo`. -/
def onLine (p : position) (combo : position × position × position) : Prop :=
  p = combo.1 ∨ p = combo.2.1 ∨ p = combo.2.2

instance (p : position) (combo : position × position × position) :
    Decidable (onLine p combo) := by
  unfold onLine; infer_instance

/-- The row number of a row letter: 0 for `A` or `a`, 1 for `B` or `b`, 2 for
`C` or `c`. -/
def row_index (r : Char) : Nat :=
  if r = 'A' ∨ r = 'a' then 0 else if r = 'B' ∨ r = 'b' then 1 else 2

/-- The column number written by a column digit. -/
def col_number (c : Char) : Nat :=
  c.toNat - '0'.toNat

/-- The line is a row letter followed by a column digit, and `p` is the cell
with linear index `3 * row + (column - 1)`. -/
def cell_reference (line : String) (p : position) : Prop :=
  ∃ r ∈ ['A', 'B', 'C', 'a', 'b', 'c'], ∃ c ∈ ['1', '2', '3'],
    line = String.mk [r, c] ∧ p.toNat = 3 * row_index r + (col_number c - 1)

instance (line : String) (p : position) : Decidable (cell_reference line p) := by
  unfold cell_reference; infer_instance

/-- The 22 lines that are not bad responses: the 18 cell references and the
quit and restart commands. -/
def recognised : List String :=
  ["A1", "a1", "A2", "a2", "A3", "a3", "B1", "b1", "B2", "b2", "B3", "b3",
   "C1", "c1", "C2", "c2", "C3", "c3", "q", "Q", "r", "R"]

/-- The variables with which the body of the `for` loop of `main` is entered
for loop index `i` in some round: the first turn starts from `new_round`, and
a turn that leaves `round_active` set is followed by the next one. -/
inductive TurnStart : Nat → RoundVars → Prop
  | first : TurnStart 0 (new_round true)
  | next {i : Nat} {v v1 : RoundVars} {input input1 : List String}
      {output output1 : List Event} :
      TurnStart i v → turn i v input output = Run.done v1 input1 output1 →
      v1.round_active = true → i + 1 < 9 → TurnStart (i + 1) v1

/-- The result of a run that returns. -/
def Run.result {α : Type} : Run α → Option α
  | Run.done r _ _ => some r
  | Run.starved _ => none
  | Run.fuel _ => none

/-- The output of a run. -/
def Run.output {α : Type} : Run α → List Event
  | Run.done _ _ out => out
  | Run.starved out => out
  | Run.fuel out => out

/-- The variables at the start of the ninth turn after the placements
a2, b2, a3, b3, b1, c2, c1, c3: only a1 is blank and O is to move. -/
def ninthTurnTwoLines : RoundVars :=
  { board := ⟨.B, .O, .O, .O, .X, .X, .O, .X, .X⟩, x_turn := false,
    round_active := true, winner := false, game_active := true }

/-- The nine cells of the board in index order. -/
def Board.cells (board : Board) : List piece :=
  [board.a1, board.a2, board.a3, board.b1, board.b2, board.b3, board.c1, board.c2, board.c3]

/-- The player a piece belongs to: `some true` for X and its highlighted
form, `some false` for O and its highlighted form, `none` for a blank. -/
def owner : piece → Option Bool
  | .B => none
  | .O => some false
  | .X => some true
  | .OW => some false
  | .XW => some true

/-- A sequence of answers, each a cell reference to a cell that is blank when
it is given, placed by alternating players starting with the player `x_turn`
on `board`, none of which gives the player who places it a line. -/
def quiet_moves : Board → Bool → List (String × position) → Prop
  | _, _, [] => True
  | board, x_turn, m :: ms =>
    cell_reference m.1 m.2 ∧ board.get m.2 = piece.B
      ∧ (check_winner (board.set m.2 (players_piece x_turn)) x_turn).2 = false
      ∧ quiet_moves (board.set m.2 (players_piece x_turn)) (!x_turn) ms

/-- The board after the placements of a sequence of answers by alternating
players. -/
def after_moves : Board → Bool → List (String × position) → Board
  | board, _, [] => board
  | board, x_turn, m :: ms =>
    after_moves (board.set m.2 (players_piece x_turn)) (!x_turn) ms

/-- The player to move after a number of placements by alternating players. -/
def turn_after (x_turn : Bool) : Nat → Bool
  | 0 => x_turn
  | n + 1 => turn_after (!x_turn) n

/-- What is shown and read while a sequence of answers is placed, one prompt
and one read per answer. -/
def moves_trace : Board → Bool → List (String × position) → List Event
  | _, _, [] => []
  | board, x_turn, m :: ms =>
    [Event.clear, Event.printBoard board, Event.turnPrompt x_turn, Event.getline m.1]
      ++ moves_trace (board.set m.2 (players_piece x_turn)) (!x_turn) ms

/-- The event belongs to the end-of-round screen: a banner or the prompt to
continue. -/
def Event.endOfRound : Event → Bool
  | Event.wins _ => true
  | Event.tie => true
  | Event.continuePrompt => true
  | _ => false

/-- Nine answers that fill the board without a line: O a1, X a2, O a3, X b2,
O c2, X b3, O b1, X c1, O c3. -/
def tieMoves : List (String × position) :=
  [("a1", .a1), ("a2", .a2), ("a3", .a3), ("b2", .b2), ("c2", .c2), ("b3", .b3),
   ("b1", .b1), ("c1", .c1), ("c3", .c3)]

instance quiet_moves_decidable :
    (board : Board) → (x_turn : Bool) → (ms : List (String × position)) →
      Decidable (quiet_moves board x_turn ms)
  | _, _, [] => isTrue trivial
  | board, x_turn, m :: ms =>
    have := quiet_moves_decidable (board.set m.2 (players_piece x_turn)) (!x_turn) ms
    inferInstanceAs (Decidable (cell_reference m.1 m.2 ∧ board.get m.2 = piece.B
      ∧ (check_winner (board.set m.2 (players_piece x_turn)) x_turn).2 = false
      ∧ quiet_moves (board.set m.2 (players_piece x_turn)) (!x_turn) ms))

/-- The board after B2, A1, A2, C3: O holds a2 and b2, X holds a1 and c3. -/
def beforeMiddleColumn : Board :=
  ⟨.X, .O, .B, .B, .O, .B, .B, .B, .X⟩

/-- The board `beforeMiddleColumn` after O's C2 and the highlighting of the
middle column. -/
def afterMiddleColumn : Board :=
  ⟨.X, .OW, .B, .B, .OW, .B, .B, .OW, .X⟩

/-! ## Reading and writing cells -/

theorem Board.get_set (board : Board) (p q : position) (v : piece) :
    (board.set p v).get q = if q = p then v else board.get q := by
  cases p <;> cases q <;> rfl

theorem Board.ext_get {b1 b2 : Board} (h : ∀ p, b1.get p = b2.get p) : b1 = b2 := by
  cases b1; cases b2
  have h1 := h .a1; have h2 := h .a2; have h3 := h .a3
  have h4 := h .b1; have h5 := h .b2; have h6 := h .b3
  have h7 := h .c1; have h8 := h .c2; have h9 := h .c3
  simp only [Board.get] at h1 h2 h3 h4 h5 h6 h7 h8 h9
  subst h1 h2 h3 h4 h5 h6 h7 h8 h9
  rfl

/-! ## The loop of `check_winner` -/

theorem check_loop_won (cp wp : piece) (cs : List (position × position × position))
    (board : Board) : check_loop cp wp cs board true = (board, true) := by
  cases cs <;> simp [check_loop]

theorem check_loop_none (cp wp : piece) (cs : List (position × position × position))
    (board : Board) (h : ∀ c ∈ cs, ¬ holds board cp c) :
    check_loop cp wp cs board false = (board, false) := by
  induction cs with
  | nil => rfl
  | cons c cs ih =>
    have hc : ¬ holds board cp c := h c (List.mem_cons_self c cs)
    have hrest : ∀ d ∈ cs, ¬ holds board cp d := fun d hd => h d (List.mem_cons_of_mem c hd)
    unfold holds at hc
    simp only [check_loop, Bool.false_eq_true, if_false, hc]
    exact ih hrest

theorem check_loop_first (cp wp : piece) (pre post : List (position × position × position))
    (c : position × position × position) (board : Board)
    (hpre : ∀ d ∈ pre, ¬ holds board cp d) (hc : holds board cp c) :
    check_loop cp wp (pre ++ c :: post) board false
      = (((board.set c.1 wp).set c.2.1 wp).set c.2.2 wp, true) := by
  induction pre with
  | nil =>
    unfold holds at hc
    simp only [List.nil_append, check_loop, Bool.false_eq_true, if_false, hc, and_self,
      if_true]
    exact check_loop_won cp wp post _
  | cons d pre ih =>
    have hd : ¬ holds board cp d := hpre d (List.mem_cons_self d pre)
    have hrest : ∀ e ∈ pre, ¬ holds board cp e :=
      fun e he => hpre e (List.mem_cons_of_mem d he)
    unfold holds at hd
    simp only [List.cons_append, check_loop, Bool.false_eq_true, if_false, hd]
    exact ih hrest

/-- A list in which some element satisfies `P` splits at the first such element. -/
theorem split_first {α : Type} (P : α → Prop) (l : List α) (h : ∃ c ∈ l, P c) :
    ∃ pre c post, l = pre ++ c :: post ∧ (∀ d ∈ pre, ¬ P d) ∧ P c := by
  classical
  induction l with
  | nil => obtain ⟨c, hc, _⟩ := h; cases hc
  | cons a l ih =>
    by_cases ha : P a
    · exact ⟨[], a, l, rfl, by simp, ha⟩
    · have h1 : ∃ c ∈ l, P c := by
        obtain ⟨c, hc, hp⟩ := h
        rcases List.mem_cons.mp hc with rfl | hc
        · exact absurd hp ha
        · exact ⟨c, hc, hp⟩
      obtain ⟨pre, c, post, hl, hpre, hc⟩ := ih h1
      refine ⟨a :: pre, c, post, by simp [hl], ?_, hc⟩
      intro d hd
      rcases List.mem_cons.mp hd with rfl | hd
      · exact ha
      · exact hpre d hd

/-- The cells of the board after the three writes of a winning combination. -/
theorem get_marked (board : Board) (wp : piece) (c : position × position × position)
    (q : position) :
    (((board.set c.1 wp).set c.2.1 wp).set c.2.2 wp).get q
      = if onLine q c then wp else board.get q := by
  simp only [Board.get_set, onLine]
  by_cases h3 : q = c.2.2
  · simp [h3]
  · by_cases h2 : q = c.2.1
    · simp [h2]
    · by_cases h1 : q = c.1
      · simp [h1]
      · simp [h1, h2, h3]

/-! ## Claims about `check_winner` -/

/-- C1: `check_winner` returns true exactly when one of the 8 lines of
`win_combinations` has all three cells equal to the plain mark of the player
who moved (`X` when `x_turn`, else `O`); a line of the opponent's mark or of
highlighted marks is not such a line. -/
theorem C1_check_winner_iff (board : Board) (x_turn : Bool) :
    (check_winner board x_turn).2 = true ↔
      ∃ c ∈ win_combinations,
        board.get c.1 = players_piece x_turn ∧ board.get c.2.1 = players_piece x_turn
          ∧ board.get c.2.2 = players_piece x_turn := by
  constructor
  · intro hwin
    by_contra hno
    have hnone : ∀ c ∈ win_combinations, ¬ holds board (players_piece x_turn) c :=
      fun c hc hh => hno ⟨c, hc, hh⟩
    have := check_loop_none (players_piece x_turn) (winning_piece x_turn)
      win_combinations board hnone
    simp only [check_winner, players_piece, winning_piece] at hwin this
    rw [this] at hwin
    exact Bool.false_ne_true hwin
  · intro hex
    obtain ⟨pre, c, post, hl, hpre, hc⟩ :=
      split_first (holds board (players_piece x_turn)) win_combinations hex
    have := check_loop_first (players_piece x_turn) (winning_piece x_turn) pre post c
      board hpre hc
    simp only [check_winner, players_piece, winning_piece] at this ⊢
    rw [hl, this]

/-- C2: when the mover holds at least one line, `win_combinations` splits at
the first held line `c` (every line before it in the order top, middle, bottom
row, left, middle, right column, diagonal a1-b2-c3, diagonal a3-b2-c1 is not
held), `check_winner` returns true, the three cells of `c` become the mover's
winning piece, and every other cell keeps its value, whatever other lines are
held. -/
theorem C2_first_line_marked (board : Board) (x_turn : Bool)
    (h : ∃ c ∈ win_combinations, holds board (players_piece x_turn) c) :
    ∃ pre c post, win_combinations = pre ++ c :: post
      ∧ (∀ d ∈ pre, ¬ holds board (players_piece x_turn) d)
      ∧ holds board (players_piece x_turn) c
      ∧ (check_winner board x_turn).2 = true
      ∧ ∀ q, (check_winner board x_turn).1.get q
          = if onLine q c then winning_piece x_turn else board.get q := by
  obtain ⟨pre, c, post, hl, hpre, hc⟩ :=
    split_first (holds board (players_piece x_turn)) win_combinations h
  have key := check_loop_first (players_piece x_turn) (winning_piece x_turn) pre post c
    board hpre hc
  have hcw : check_winner board x_turn
      = (((board.set c.1 (winning_piece x_turn)).set c.2.1 (winning_piece x_turn)).set
          c.2.2 (winning_piece x_turn), true) := by
    simp only [check_winner, players_piece, winning_piece] at key ⊢
    rw [hl, key]
  refine ⟨pre, c, post, hl, hpre, hc, by rw [hcw], ?_⟩
  intro q
  rw [hcw]
  exact get_marked board (winning_piece x_turn) c q

/-- C3: when no line of `win_combinations` is fully occupied by the mover's
plain mark, `check_winner` returns false and leaves the board as it was. -/
theorem C3_no_line_unchanged (board : Board) (x_turn : Bool)
    (h : ∀ c ∈ win_combinations, ¬ holds board (players_piece x_turn) c) :
    check_winner board x_turn = (board, false) := by
  have := check_loop_none (players_piece x_turn) (winning_piece x_turn)
    win_combinations board h
  simp only [check_winner, players_piece, winning_piece] at this ⊢
  exact this

/-- C2 (witness): on a board where O holds both the top row and the left
column, only the top row is rewritten. -/
theorem C2_first_line_marked_witness :
    (∃ c ∈ win_combinations,
        holds ⟨.O, .O, .O, .O, .X, .X, .O, .X, .X⟩ (players_piece false) c)
    ∧ ∃ pre c post, win_combinations = pre ++ c :: post
      ∧ (∀ d ∈ pre, ¬ holds ⟨.O, .O, .O, .O, .X, .X, .O, .X, .X⟩ (players_piece false) d)
      ∧ holds ⟨.O, .O, .O, .O, .X, .X, .O, .X, .X⟩ (players_piece false) c
      ∧ (check_winner ⟨.O, .O, .O, .O, .X, .X, .O, .X, .X⟩ false).2 = true
      ∧ ∀ q, (check_winner ⟨.O, .O, .O, .O, .X, .X, .O, .X, .X⟩ false).1.get q
          = if onLine q c then winning_piece false
            else Board.get ⟨.O, .O, .O, .O, .X, .X, .O, .X, .X⟩ q :=
  ⟨⟨(.a1, .b1, .c1), by decide, by decide⟩,
    C2_first_line_marked ⟨.O, .O, .O, .O, .X, .X, .O, .X, .X⟩ false
      ⟨(.a1, .b1, .c1), by decide, by decide⟩⟩

/-- C3 (witness): X has just moved on a board where only O holds a line. -/
theorem C3_no_line_unchanged_witness :
    (∀ c ∈ win_combinations,
        ¬ holds ⟨.O, .O, .O, .X, .X, .B, .B, .B, .X⟩ (players_piece true) c)
    ∧ check_winner ⟨.O, .O, .O, .X, .X, .B, .B, .B, .X⟩ true
        = (⟨.O, .O, .O, .X, .X, .B, .B, .B, .X⟩, false) :=
  ⟨by decide, C3_no_line_unchanged ⟨.O, .O, .O, .X, .X, .B, .B, .B, .X⟩ true (by decide)⟩

/-- A turn that returns with `round_active` still set leads to the next turn. -/
theorem TurnStart.step {i : Nat} {v : RoundVars} (input : List String) (v1 : RoundVars)
    (h : TurnStart i v) (hturn : (turn i v input []).result = some v1)
    (hactive : v1.round_active = true) (hi : i + 1 < 9) : TurnStart (i + 1) v1 := by
  cases hrun : turn i v input [] with
  | done r input1 output1 =>
    rw [hrun] at hturn
    simp only [Run.result, Option.some.injEq] at hturn
    subst hturn
    exact TurnStart.next h hrun hactive hi
  | starved out => rw [hrun] at hturn; cases hturn
  | fuel out => rw [hrun] at hturn; cases hturn

/-- The variables `ninthTurnTwoLines` are reached by the `for` loop of `main`. -/
theorem ninthTurnTwoLines_start : TurnStart 8 ninthTurnTwoLines := by
  have h0 := TurnStart.first
  have h1 := TurnStart.step ["a2"]
    ⟨⟨.B, .O, .B, .B, .B, .B, .B, .B, .B⟩, true, true, false, true⟩ h0
    (by decide) rfl (by decide)
  have h2 := TurnStart.step ["b2"]
    ⟨⟨.B, .O, .B, .B, .X, .B, .B, .B, .B⟩, false, true, false, true⟩ h1
    (by decide) rfl (by decide)
  have h3 := TurnStart.step ["a3"]
    ⟨⟨.B, .O, .O, .B, .X, .B, .B, .B, .B⟩, true, true, false, true⟩ h2
    (by decide) rfl (by decide)
  have h4 := TurnStart.step ["b3"]
    ⟨⟨.B, .O, .O, .B, .X, .X, .B, .B, .B⟩, false, true, false, true⟩ h3
    (by decide) rfl (by decide)
  have h5 := TurnStart.step ["b1"]
    ⟨⟨.B, .O, .O, .O, .X, .X, .B, .B, .B⟩, true, true, false, true⟩ h4
    (by decide) rfl (by decide)
  have h6 := TurnStart.step ["c2"]
    ⟨⟨.B, .O, .O, .O, .X, .X, .B, .X, .B⟩, false, true, false, true⟩ h5
    (by decide) rfl (by decide)
  have h7 := TurnStart.step ["c1"]
    ⟨⟨.B, .O, .O, .O, .X, .X, .O, .X, .B⟩, true, true, false, true⟩ h6
    (by decide) rfl (by decide)
  exact TurnStart.step ["c3"] ninthTurnTwoLines h7 (by decide) rfl (by decide)

/-- C4 (counterexample): after a2, b2, a3, b3, b1, c2, c1, c3 the ninth mark,
O on a1, gives O the left column a1-b1-c1, yet after `check_winner` the cells
b1 and c1 of that line still hold the plain O: the top row was found first. -/
theorem C4_second_line_left_plain :
    TurnStart 8 ninthTurnTwoLines
    ∧ ninthTurnTwoLines.board.get .a1 = piece.B
    ∧ (position.a1, position.b1, position.c1) ∈ win_combinations
    ∧ holds (ninthTurnTwoLines.board.set .a1 (players_piece ninthTurnTwoLines.x_turn))
        (players_piece ninthTurnTwoLines.x_turn) (.a1, .b1, .c1)
    ∧ onLine .b1 (.a1, .b1, .c1)
    ∧ (check_winner
          (ninthTurnTwoLines.board.set .a1 (players_piece ninthTurnTwoLines.x_turn))
          ninthTurnTwoLines.x_turn)
        = (⟨.OW, .OW, .OW, .O, .X, .X, .O, .X, .X⟩, true)
    ∧ (check_winner
          (ninthTurnTwoLines.board.set .a1 (players_piece ninthTurnTwoLines.x_turn))
          ninthTurnTwoLines.x_turn).1.get .b1 ≠ winning_piece ninthTurnTwoLines.x_turn :=
  ⟨ninthTurnTwoLines_start, by decide, by decide, by decide, by decide, by decide,
    by decide⟩

/-- C4 (amended): on a board reached by the round loop, once the mover's mark
is placed on a blank cell, if the mover holds the line `L` and no line that
comes before `L` in `win_combinations`, then `check_winner` returns true, the
three cells of `L` hold the mover's winning piece and every other cell keeps
its value. -/
theorem C4_first_held_line_annotated (i : Nat) (v : RoundVars) (p : position)
    (pre post : List (position × position × position))
    (L : position × position × position)
    (_hstart : TurnStart i v) (_hempty : v.board.get p = piece.B)
    (hsplit : win_combinations = pre ++ L :: post)
    (hL : holds (v.board.set p (players_piece v.x_turn)) (players_piece v.x_turn) L)
    (hpre : ∀ d ∈ pre,
      ¬ holds (v.board.set p (players_piece v.x_turn)) (players_piece v.x_turn) d) :
    (check_winner (v.board.set p (players_piece v.x_turn)) v.x_turn).2 = true
    ∧ ∀ q, (check_winner (v.board.set p (players_piece v.x_turn)) v.x_turn).1.get q
        = if onLine q L then winning_piece v.x_turn
          else (v.board.set p (players_piece v.x_turn)).get q := by
  have key := check_loop_first (players_piece v.x_turn) (winning_piece v.x_turn) pre post L
    (v.board.set p (players_piece v.x_turn)) hpre hL
  have hcw : check_winner (v.board.set p (players_piece v.x_turn)) v.x_turn
      = ((((v.board.set p (players_piece v.x_turn)).set L.1 (winning_piece v.x_turn)).set
          L.2.1 (winning_piece v.x_turn)).set L.2.2 (winning_piece v.x_turn), true) := by
    simp only [check_winner, players_piece, winning_piece] at key ⊢
    rw [hsplit, key]
  refine ⟨by rw [hcw], ?_⟩
  intro q
  rw [hcw]
  exact get_marked _ (winning_piece v.x_turn) L q

/-- C4 (witness): on the same ninth turn the top row a1-a2-a3 is the first line
O holds, and it is the one annotated. -/
theorem C4_first_held_line_annotated_witness :
    (check_winner
        (ninthTurnTwoLines.board.set .a1 (players_piece ninthTurnTwoLines.x_turn))
        ninthTurnTwoLines.x_turn).2 = true
    ∧ ∀ q, (check_winner
          (ninthTurnTwoLines.board.set .a1 (players_piece ninthTurnTwoLines.x_turn))
          ninthTurnTwoLines.x_turn).1.get q
        = if onLine q (.a1, .a2, .a3) then winning_piece ninthTurnTwoLines.x_turn
          else (ninthTurnTwoLines.board.set .a1
            (players_piece ninthTurnTwoLines.x_turn)).get q :=
  C4_first_held_line_annotated 8 ninthTurnTwoLines .a1 []
    [(.b1, .b2, .b3), (.c1, .c2, .c3), (.a1, .b1, .c1), (.a2, .b2, .c2), (.a3, .b3, .c3),
      (.a1, .b2, .c3), (.a3, .b2, .c1)]
    (.a1, .a2, .a3) ninthTurnTwoLines_start (by decide) rfl (by decide) (by decide)

/-! ## The turn prompt loop -/

theorem dispatch_cell (board : Board) (line : String) (p : position) (s : PromptVars)
    (h : cell_reference line p) : dispatch board line s = choose board p s := by
  obtain ⟨r, hr, c, hc, rfl, hp⟩ := h
  simp only [List.mem_cons, List.mem_singleton, List.not_mem_nil, or_false] at hr hc
  rcases hr with rfl | rfl | rfl | rfl | rfl | rfl <;>
    rcases hc with rfl | rfl | rfl <;>
    cases p <;>
    first
      | rfl
      | (exfalso; revert hp; decide)

theorem dispatch_bad (board : Board) (line : String) (s : PromptVars)
    (h : line ∉ recognised) : dispatch board line s = { s with bad_response := true } := by
  simp only [recognised, List.mem_cons, List.mem_singleton, List.not_mem_nil, or_false,
    not_or] at h
  simp [dispatch, h]

theorem reset_flags_good (s : PromptVars) :
    (reset_flags s).good_response = s.good_response := by
  unfold reset_flags; split_ifs <;> rfl

theorem reset_flags_status (s : PromptVars) :
    (reset_flags s).exit_status = s.exit_status := by
  unfold reset_flags; split_ifs <;> rfl

theorem reset_flags_bad (s : PromptVars) : (reset_flags s).bad_response = false := by
  unfold reset_flags; split_ifs with h1 h2 <;> simp_all

theorem prompt_loop_read (board : Board) (x_turn : Bool) (line : String)
    (rest : List String) (s : PromptVars) (out : List Event)
    (hs : s.good_response = false) :
    prompt_loop board x_turn (line :: rest) s out
      = prompt_loop board x_turn rest (dispatch board line (reset_flags s))
          (out ++ show_turn board x_turn s ++ [Event.getline line]) := by
  rw [prompt_loop]
  simp [hs]

theorem prompt_loop_good (board : Board) (x_turn : Bool) (input : List String)
    (s : PromptVars) (out : List Event) (hs : s.good_response = true) :
    prompt_loop board x_turn input s out = Run.done (place board x_turn s) input out := by
  cases input <;> simp [prompt_loop, hs]

theorem check_winner_keep (board : Board) (x_turn : Bool)
    (h : (check_winner board x_turn).2 = false) : (check_winner board x_turn).1 = board := by
  by_cases hex : ∃ c ∈ win_combinations, holds board (players_piece x_turn) c
  · obtain ⟨pre, c, post, hl, hpre, hc⟩ :=
      split_first (holds board (players_piece x_turn)) win_combinations hex
    have key := check_loop_first (players_piece x_turn) (winning_piece x_turn) pre post c
      board hpre hc
    simp only [check_winner, players_piece, winning_piece] at key h
    rw [hl, key] at h
    exact absurd h (by simp)
  · have hnone : ∀ c ∈ win_combinations, ¬ holds board (players_piece x_turn) c :=
      fun c hc hh => hex ⟨c, hc, hh⟩
    have key := check_loop_none (players_piece x_turn) (winning_piece x_turn)
      win_combinations board hnone
    simp only [check_winner, players_piece, winning_piece] at key ⊢
    rw [key]

/-- A cell reference to a blank cell ends the loop: the piece is placed and
`check_winner` decides between exit status 3 and 0. -/
theorem prompt_loop_place (board : Board) (x_turn : Bool) (line : String) (p : position)
    (rest : List String) (s : PromptVars) (out : List Event)
    (href : cell_reference line p) (hempty : board.get p = piece.B)
    (hs : s.good_response = false) (h0 : s.exit_status = 0) :
    prompt_loop board x_turn (line :: rest) s out
      = Run.done
          (if (check_winner (board.set p (players_piece x_turn)) x_turn).2 then 3 else 0,
            (check_winner (board.set p (players_piece x_turn)) x_turn).1)
          rest (out ++ show_turn board x_turn s ++ [Event.getline line]) := by
  rw [prompt_loop_read board x_turn line rest s out hs, dispatch_cell board line p _ href]
  have hgood : (choose board p (reset_flags s)).good_response = true := by
    simp [choose, hempty]
  rw [prompt_loop_good _ _ _ _ _ hgood]
  have hst : (choose board p (reset_flags s)).exit_status = 0 := by
    simp [choose, hempty, reset_flags_status, h0]
  have hpos : (choose board p (reset_flags s)).pos = some p := by
    simp [choose, hempty]
  simp only [place, hst, hpos, if_true]
  by_cases hw : (check_winner (board.set p (players_piece x_turn)) x_turn).2 = true
  · simp [hw]
  · simp [hw]

/-! ## Claims about one turn -/

/-- C5: when the line read is a row letter (either case) followed by a column
digit, `p` is the cell with linear index `3 * row + (column - 1)` and that cell
is blank, the turn ends with this line: the mover's piece (`O` when `x_turn` is
false, `X` when true) is written at `p` and at no other cell, `check_winner`
runs on that board, and if it reports no win the board returned has the
mover's piece at `p` and the old value in the other eight cells. -/
theorem C5_cell_reference_places (board : Board) (x_turn : Bool) (line : String)
    (p : position) (rest : List String) (s : PromptVars) (out : List Event)
    (href : cell_reference line p) (hempty : board.get p = piece.B)
    (hs : s.good_response = false) (h0 : s.exit_status = 0) :
    ∃ board1 : Board,
      (∀ q, board1.get q = if q = p then players_piece x_turn else board.get q)
      ∧ prompt_loop board x_turn (line :: rest) s out
          = Run.done (if (check_winner board1 x_turn).2 then 3 else 0,
              (check_winner board1 x_turn).1)
            rest (out ++ show_turn board x_turn s ++ [Event.getline line])
      ∧ ((check_winner board1 x_turn).2 = false →
          ∀ q, (check_winner board1 x_turn).1.get q
            = if q = p then players_piece x_turn else board.get q) := by
  refine ⟨board.set p (players_piece x_turn), fun q => Board.get_set board p q _,
    prompt_loop_place board x_turn line p rest s out href hempty hs h0, ?_⟩
  intro hw q
  rw [check_winner_keep _ _ hw]
  exact Board.get_set board p q _

/-- C5 (witness): X answers `b3` on a board whose cell b3 (index 5) is blank. -/
theorem C5_cell_reference_places_witness :
    cell_reference "b3" .b3
    ∧ position.b3.toNat = 5
    ∧ ∃ board1 : Board,
      (∀ q, board1.get q
          = if q = .b3 then players_piece true
            else Board.get ⟨.O, .B, .B, .B, .X, .B, .B, .B, .O⟩ q)
      ∧ prompt_loop ⟨.O, .B, .B, .B, .X, .B, .B, .B, .O⟩ true ("b3" :: ["q"])
            PromptVars.init []
          = Run.done (if (check_winner board1 true).2 then 3 else 0,
              (check_winner board1 true).1)
            ["q"] ([] ++ show_turn ⟨.O, .B, .B, .B, .X, .B, .B, .B, .O⟩ true PromptVars.init
              ++ [Event.getline "b3"])
      ∧ ((check_winner board1 true).2 = false →
          ∀ q, (check_winner board1 true).1.get q
            = if q = .b3 then players_piece true
              else Board.get ⟨.O, .B, .B, .B, .X, .B, .B, .B, .O⟩ q) :=
  ⟨by decide, rfl,
    C5_cell_reference_places ⟨.O, .B, .B, .B, .X, .B, .B, .B, .O⟩ true "b3" .b3 ["q"]
      PromptVars.init [] (by decide) rfl rfl rfl⟩

/-- C6: a cell reference to a cell that is not blank does not end the loop:
the loop goes on with the same board and the same player, the lines after it
still unread, `good_response` false and `already_taken` set, and its next pass
shows the message for a filled position, the same board and the prompt for the
same player. -/
theorem C6_occupied_cell_rejected (board : Board) (x_turn : Bool) (line : String)
    (p : position) (rest : List String) (s : PromptVars) (out : List Event)
    (href : cell_reference line p) (hocc : board.get p ≠ piece.B)
    (hs : s.good_response = false) :
    dispatch board line (reset_flags s) = { reset_flags s with already_taken := true }
    ∧ prompt_loop board x_turn (line :: rest) s out
        = prompt_loop board x_turn rest { reset_flags s with already_taken := true }
            (out ++ show_turn board x_turn s ++ [Event.getline line])
    ∧ ({ reset_flags s with already_taken := true } : PromptVars).good_response = false
    ∧ show_turn board x_turn { reset_flags s with already_taken := true }
        = [Event.clear, Event.errTaken, Event.printBoard board, Event.turnPrompt x_turn] := by
  have hd : dispatch board line (reset_flags s)
      = { reset_flags s with already_taken := true } := by
    rw [dispatch_cell board line p _ href]
    simp [choose, hocc]
  refine ⟨hd, ?_, ?_, ?_⟩
  · rw [prompt_loop_read board x_turn line rest s out hs, hd]
  · simp [reset_flags_good, hs]
  · simp [show_turn, reset_flags_bad]

/-- C6 (witness): O answers `A1` on a board whose cell a1 holds X. -/
theorem C6_occupied_cell_rejected_witness :
    cell_reference "A1" .a1
    ∧ Board.get ⟨.X, .B, .B, .B, .O, .B, .B, .B, .B⟩ .a1 ≠ piece.B
    ∧ dispatch ⟨.X, .B, .B, .B, .O, .B, .B, .B, .B⟩ "A1" (reset_flags PromptVars.init)
        = { reset_flags PromptVars.init with already_taken := true }
    ∧ prompt_loop ⟨.X, .B, .B, .B, .O, .B, .B, .B, .B⟩ false ("A1" :: ["c3"])
          PromptVars.init []
        = prompt_loop ⟨.X, .B, .B, .B, .O, .B, .B, .B, .B⟩ false ["c3"]
            { reset_flags PromptVars.init with already_taken := true }
            ([] ++ show_turn ⟨.X, .B, .B, .B, .O, .B, .B, .B, .B⟩ false PromptVars.init
              ++ [Event.getline "A1"])
    ∧ ({ reset_flags PromptVars.init with already_taken := true } : PromptVars).good_response
        = false
    ∧ show_turn ⟨.X, .B, .B, .B, .O, .B, .B, .B, .B⟩ false
          { reset_flags PromptVars.init with already_taken := true }
        = [Event.clear, Event.errTaken,
            Event.printBoard ⟨.X, .B, .B, .B, .O, .B, .B, .B, .B⟩, Event.turnPrompt false] :=
  ⟨by decide, by decide,
    C6_occupied_cell_rejected ⟨.X, .B, .B, .B, .O, .B, .B, .B, .B⟩ false "A1" .a1 ["c3"]
      PromptVars.init [] (by decide) (by decide) rfl⟩

/-- C7: a line that is none of the 22 recognised lines does not end the loop:
the loop goes on with the same board and the same player, the lines after it
still unread, `good_response` false and `bad_response` set, and its next pass
shows the message for a bad response, the same board and the prompt for the
same player.  The empty line, `A4`, `D1`, `A11`, ` a1` and `1A` are such
lines. -/
theorem C7_bad_response_rejected :
    (∀ (board : Board) (x_turn : Bool) (line : String) (rest : List String)
        (s : PromptVars) (out : List Event),
        line ∉ recognised → s.good_response = false →
        dispatch board line (reset_flags s) = { reset_flags s with bad_response := true }
        ∧ prompt_loop board x_turn (line :: rest) s out
            = prompt_loop board x_turn rest { reset_flags s with bad_response := true }
                (out ++ show_turn board x_turn s ++ [Event.getline line])
        ∧ ({ reset_flags s with bad_response := true } : PromptVars).good_response = false
        ∧ show_turn board x_turn { reset_flags s with bad_response := true }
            = [Event.clear, Event.errBad, Event.printBoard board, Event.turnPrompt x_turn])
    ∧ ∀ line ∈ ["", "A4", "D1", "A11", " a1", "1A"], line ∉ recognised := by
  refine ⟨?_, by decide⟩
  intro board x_turn line rest s out hline hs
  have hd := dispatch_bad board line (reset_flags s) hline
  refine ⟨hd, ?_, ?_, ?_⟩
  · rw [prompt_loop_read board x_turn line rest s out hs, hd]
  · simp [reset_flags_good, hs]
  · simp [show_turn]

/-- C7 (witness): X answers `A4` after an earlier answer hit a filled cell. -/
theorem C7_bad_response_rejected_witness :
    "A4" ∉ recognised
    ∧ dispatch ⟨.X, .B, .B, .B, .O, .B, .B, .B, .B⟩ "A4"
          (reset_flags { PromptVars.init with already_taken := true })
        = { reset_flags { PromptVars.init with already_taken := true } with
            bad_response := true }
    ∧ prompt_loop ⟨.X, .B, .B, .B, .O, .B, .B, .B, .B⟩ true ("A4" :: ["c3"])
          { PromptVars.init with already_taken := true } []
        = prompt_loop ⟨.X, .B, .B, .B, .O, .B, .B, .B, .B⟩ true ["c3"]
            { reset_flags { PromptVars.init with already_taken := true } with
              bad_response := true }
            ([] ++ show_turn ⟨.X, .B, .B, .B, .O, .B, .B, .B, .B⟩ true
                { PromptVars.init with already_taken := true }
              ++ [Event.getline "A4"])
    ∧ ({ reset_flags { PromptVars.init with already_taken := true } with
          bad_response := true } : PromptVars).good_response = false
    ∧ show_turn ⟨.X, .B, .B, .B, .O, .B, .B, .B, .B⟩ true
          { reset_flags { PromptVars.init with already_taken := true } with
            bad_response := true }
        = [Event.clear, Event.errBad,
            Event.printBoard ⟨.X, .B, .B, .B, .O, .B, .B, .B, .B⟩, Event.turnPrompt true] :=
  ⟨by decide,
    C7_bad_response_rejected.1 ⟨.X, .B, .B, .B, .O, .B, .B, .B, .B⟩ true "A4" ["c3"]
      { PromptVars.init with already_taken := true } [] (by decide) rfl⟩

theorem place_keep (board : Board) (x_turn : Bool) (s : PromptVars)
    (h : (place board x_turn s).1 = 1 ∨ (place board x_turn s).1 = 2) :
    (place board x_turn s).2 = board := by
  unfold place at h ⊢
  by_cases h0 : s.exit_status = 0
  · simp only [h0, if_true] at h
    split_ifs at h <;> simp at h
  · simp only [h0, if_false]

theorem prompt_loop_keep (board : Board) (x_turn : Bool) (input : List String) :
    ∀ (s : PromptVars) (out : List Event) (r : Nat × Board) (input1 : List String)
      (out1 : List Event),
      prompt_loop board x_turn input s out = Run.done r input1 out1 →
      r.1 = 1 ∨ r.1 = 2 → r.2 = board := by
  induction input with
  | nil =>
    intro s out r input1 out1 hrun hst
    by_cases hs : s.good_response = true
    · rw [prompt_loop_good _ _ _ _ _ hs] at hrun
      injection hrun with hr
      subst hr
      exact place_keep board x_turn s hst
    · simp [prompt_loop, hs] at hrun
  | cons line rest ih =>
    intro s out r input1 out1 hrun hst
    by_cases hs : s.good_response = true
    · rw [prompt_loop_good _ _ _ _ _ hs] at hrun
      injection hrun with hr
      subst hr
      exact place_keep board x_turn s hst
    · have hs1 : s.good_response = false := by simpa using hs
      rw [prompt_loop_read board x_turn line rest s out hs1] at hrun
      exact ih _ _ r input1 out1 hrun hst

/-- C10: a quit line (`q` or `Q`) ends the turn with exit status 2 and a
restart line (`r` or `R`) with exit status 1, in both cases with the board of
before the turn; and whenever `prompt_input` returns 1 or 2 the board it
leaves is the board it was given. -/
theorem C10_quit_restart_keep_board (board : Board) (x_turn : Bool) (line : String)
    (rest : List String) (s : PromptVars) (out : List Event)
    (hs : s.good_response = false) :
    (line = "q" ∨ line = "Q" →
      prompt_loop board x_turn (line :: rest) s out
        = Run.done (2, board) rest (out ++ show_turn board x_turn s ++ [Event.getline line]))
    ∧ (line = "r" ∨ line = "R" →
      prompt_loop board x_turn (line :: rest) s out
        = Run.done (1, board) rest (out ++ show_turn board x_turn s ++ [Event.getline line]))
    ∧ ∀ (input : List String) (r : Nat × Board) (input1 : List String) (out1 : List Event),
        prompt_input board x_turn input out = Run.done r input1 out1 →
        r.1 = 1 ∨ r.1 = 2 → r.2 = board := by
  refine ⟨?_, ?_, ?_⟩
  · intro hq
    rw [prompt_loop_read board x_turn line rest s out hs]
    rcases hq with rfl | rfl <;>
      simp [dispatch, prompt_loop_good, place]
  · intro hr
    rw [prompt_loop_read board x_turn line rest s out hs]
    rcases hr with rfl | rfl <;>
      simp [dispatch, prompt_loop_good, place]
  · intro input r input1 out1 hrun hst
    exact prompt_loop_keep board x_turn input PromptVars.init out r input1 out1 hrun hst

/-- C10 (witness): X answers `q` after a bad response. -/
theorem C10_quit_restart_keep_board_witness :
    ({ PromptVars.init with bad_response := true } : PromptVars).good_response = false
    ∧ prompt_loop ⟨.O, .B, .B, .B, .X, .B, .B, .B, .O⟩ true ("q" :: ["a2"])
          { PromptVars.init with bad_response := true } []
        = Run.done (2, ⟨.O, .B, .B, .B, .X, .B, .B, .B, .O⟩) ["a2"]
            ([] ++ show_turn ⟨.O, .B, .B, .B, .X, .B, .B, .B, .O⟩ true
                { PromptVars.init with bad_response := true }
              ++ [Event.getline "q"]) :=
  ⟨rfl,
    (C10_quit_restart_keep_board ⟨.O, .B, .B, .B, .X, .B, .B, .B, .O⟩ true "q" ["a2"]
      { PromptVars.init with bad_response := true } [] rfl).1 (Or.inl rfl)⟩

/-! ## Quit and restart before the ninth turn -/

theorem round_loop_inactive (rest : List Nat) (v : RoundVars) (input : List String)
    (out : List Event) (h : v.round_active = false) :
    round_loop rest v input out = Run.done v input out := by
  cases rest <;> simp [round_loop, h]

/-- On a loop index other than 8, `q` ends the round loop with `game_active`
cleared, nothing shown after the read and the later lines unread. -/
theorem round_loop_quit_early (i : Nat) (is : List Nat) (v : RoundVars) (line : String)
    (rest : List String) (out : List Event) (hi : i ≠ 8) (hactive : v.round_active = true)
    (hwinner : v.winner = false) (hq : line = "q" ∨ line = "Q") :
    round_loop (i :: is) v (line :: rest) out
      = Run.done { v with game_active := false, round_active := false, x_turn := !v.x_turn }
          rest (out ++ show_turn v.board v.x_turn PromptVars.init ++ [Event.getline line]) := by
  have hp : prompt_input v.board v.x_turn (line :: rest) out
      = Run.done (2, v.board) rest
          (out ++ show_turn v.board v.x_turn PromptVars.init ++ [Event.getline line]) := by
    unfold prompt_input
    rw [prompt_loop_read v.board v.x_turn line rest PromptVars.init out rfl]
    rcases hq with rfl | rfl <;> simp [dispatch, prompt_loop_good, place]
  have ht : turn i v (line :: rest) out
      = Run.done { v with game_active := false, round_active := false, x_turn := !v.x_turn }
          rest (out ++ show_turn v.board v.x_turn PromptVars.init ++ [Event.getline line]) := by
    simp [turn, hp, on_status, hwinner, hi]
  simp only [round_loop, hactive, if_true, ht]
  exact round_loop_inactive is _ _ _ rfl

/-- Once `game_active` is cleared the game loop is left at once. -/
theorem game_loop_inactive (n : Nat) (input : List String) (out : List Event) :
    game_loop n false input out = Run.done () input out := by
  cases n <;> simp [game_loop]

/-- On a loop index other than 8, `r` ends the round loop with `game_active`
untouched, nothing shown after the read and the later lines unread. -/
theorem round_loop_restart_early (i : Nat) (is : List Nat) (v : RoundVars) (line : String)
    (rest : List String) (out : List Event) (hi : i ≠ 8) (hactive : v.round_active = true)
    (hwinner : v.winner = false) (hr : line = "r" ∨ line = "R") :
    round_loop (i :: is) v (line :: rest) out
      = Run.done { v with round_active := false, x_turn := !v.x_turn }
          rest (out ++ show_turn v.board v.x_turn PromptVars.init ++ [Event.getline line]) := by
  have hp : prompt_input v.board v.x_turn (line :: rest) out
      = Run.done (1, v.board) rest
          (out ++ show_turn v.board v.x_turn PromptVars.init ++ [Event.getline line]) := by
    unfold prompt_input
    rw [prompt_loop_read v.board v.x_turn line rest PromptVars.init out rfl]
    rcases hr with rfl | rfl <;> simp [dispatch, prompt_loop_good, place]
  have ht : turn i v (line :: rest) out
      = Run.done { v with round_active := false, x_turn := !v.x_turn }
          rest (out ++ show_turn v.board v.x_turn PromptVars.init ++ [Event.getline line]) := by
    simp [turn, hp, on_status, hwinner, hi]
  simp only [round_loop, hactive, if_true, ht]
  exact round_loop_inactive is _ _ _ rfl

/-- A round starts by showing the empty board and the prompt for O. -/
theorem round_first_prompt (line : String) (rest : List String) (out : List Event) :
    show_turn (new_round true).board (new_round true).x_turn PromptVars.init
      = [Event.clear, Event.printBoard emptyBoard, Event.turnPrompt false]
    ∧ round true [] out
      = Run.starved (out ++ [Event.clear, Event.printBoard emptyBoard, Event.turnPrompt false])
    ∧ prompt_input emptyBoard false (line :: rest) out
      = prompt_loop emptyBoard false rest (dispatch emptyBoard line PromptVars.init)
          (out ++ [Event.clear, Event.printBoard emptyBoard, Event.turnPrompt false]
            ++ [Event.getline line]) := by
  refine ⟨rfl, rfl, ?_⟩
  unfold prompt_input
  rw [prompt_loop_read emptyBoard false line rest PromptVars.init out rfl]
  rfl

/-! ## The round budget of `main` is never used up -/

theorem prompt_loop_consumes (board : Board) (x_turn : Bool) (input : List String) :
    ∀ (s : PromptVars) (out : List Event),
      (∀ o, prompt_loop board x_turn input s out ≠ Run.fuel o)
      ∧ ∀ r input1 out1, prompt_loop board x_turn input s out = Run.done r input1 out1 →
          input1.length ≤ input.length
          ∧ (s.good_response = false → input1.length < input.length) := by
  induction input with
  | nil =>
    intro s out
    by_cases hs : s.good_response = true
    · rw [prompt_loop_good _ _ _ _ _ hs]
      refine ⟨(fun o h => by cases h), ?_⟩
      intro r input1 out1 h
      injection h with _ h2 _
      subst h2
      exact ⟨le_refl _, fun hf => by rw [hs] at hf; cases hf⟩
    · refine ⟨(fun o h => by simp [prompt_loop, hs] at h), ?_⟩
      intro r input1 out1 h
      simp [prompt_loop, hs] at h
  | cons line rest ih =>
    intro s out
    by_cases hs : s.good_response = true
    · rw [prompt_loop_good _ _ _ _ _ hs]
      refine ⟨(fun o h => by cases h), ?_⟩
      intro r input1 out1 h
      injection h with _ h2 _
      subst h2
      exact ⟨le_refl _, fun hf => by rw [hs] at hf; cases hf⟩
    · have hs1 : s.good_response = false := by simpa using hs
      rw [prompt_loop_read board x_turn line rest s out hs1]
      obtain ⟨ihf, ihd⟩ := ih (dispatch board line (reset_flags s))
        (out ++ show_turn board x_turn s ++ [Event.getline line])
      refine ⟨ihf, ?_⟩
      intro r input1 out1 h
      have hle := (ihd r input1 out1 h).1
      simp only [List.length_cons]
      exact ⟨Nat.le_succ_of_le hle, fun _ => Nat.lt_succ_of_le hle⟩

theorem getline_length (input : List String) : (getline input).2.length ≤ input.length := by
  cases input <;> simp [getline]

theorem turn_consumes (i : Nat) (v : RoundVars) (input : List String) (out : List Event) :
    (∀ o, turn i v input out ≠ Run.fuel o)
    ∧ ∀ v1 input1 out1, turn i v input out = Run.done v1 input1 out1 →
        input1.length < input.length := by
  obtain ⟨hf, hd⟩ := prompt_loop_consumes v.board v.x_turn input PromptVars.init out
  unfold turn prompt_input
  cases hrun : prompt_loop v.board v.x_turn input PromptVars.init out with
  | starved o => exact ⟨(fun o h => by cases h), fun v1 input1 out1 h => by cases h⟩
  | fuel o => exact absurd hrun (hf o)
  | done r input0 out0 =>
    have hlt := (hd r input0 out0 hrun).2 rfl
    refine ⟨?_, ?_⟩
    · intro o h
      simp only at h
      split_ifs at h
    · intro v1 input1 out1 h
      simp only at h
      split_ifs at h
      · injection h with _ h2 _
        subst h2
        exact lt_of_le_of_lt (getline_length input0) hlt
      · injection h with _ h2 _
        subst h2
        exact hlt

theorem round_loop_consumes (is : List Nat) :
    ∀ (v : RoundVars) (input : List String) (out : List Event),
      (∀ o, round_loop is v input out ≠ Run.fuel o)
      ∧ ∀ v1 input1 out1, round_loop is v input out = Run.done v1 input1 out1 →
          input1.length ≤ input.length := by
  induction is with
  | nil =>
    intro v input out
    refine ⟨(fun o h => by cases h), ?_⟩
    intro v1 input1 out1 h
    simp only [round_loop] at h
    injection h with _ h2 _
    subst h2
    exact le_refl _
  | cons i is ih =>
    intro v input out
    by_cases ha : v.round_active = true
    · obtain ⟨tf, td⟩ := turn_consumes i v input out
      simp only [round_loop, ha, if_true]
      cases hrun : turn i v input out with
      | starved o => exact ⟨(fun o h => by cases h), fun v1 input1 out1 h => by cases h⟩
      | fuel o => exact absurd hrun (tf o)
      | done v0 input0 out0 =>
        have hlt := td v0 input0 out0 hrun
        obtain ⟨ihf, ihd⟩ := ih v0 input0 out0
        exact ⟨ihf, fun v1 input1 out1 h => le_trans (ihd v1 input1 out1 h) (le_of_lt hlt)⟩
    · have hf : v.round_active = false := by simpa using ha
      rw [round_loop_inactive _ _ _ _ hf]
      refine ⟨(fun o h => by cases h), ?_⟩
      intro v1 input1 out1 h
      injection h with _ h2 _
      subst h2
      exact le_refl _

theorem round_consumes (g : Bool) (input : List String) (out : List Event) :
    (∀ o, round g input out ≠ Run.fuel o)
    ∧ ∀ v1 input1 out1, round g input out = Run.done v1 input1 out1 →
        input1.length < input.length := by
  obtain ⟨tf, td⟩ := turn_consumes 0 (new_round g) input out
  unfold round
  simp only [round_loop, new_round, if_true]
  simp only [new_round] at tf td
  cases hrun : turn 0 ⟨emptyBoard, false, true, false, g⟩ input out with
  | starved o => exact ⟨(fun o h => by cases h), fun v1 input1 out1 h => by cases h⟩
  | fuel o => exact absurd hrun (tf o)
  | done v0 input0 out0 =>
    have hlt := td v0 input0 out0 hrun
    obtain ⟨ihf, ihd⟩ := round_loop_consumes [1, 2, 3, 4, 5, 6, 7, 8] v0 input0 out0
    exact ⟨ihf, fun v1 input1 out1 h => lt_of_le_of_lt (ihd v1 input1 out1 h) hlt⟩

theorem game_loop_budget (n : Nat) :
    ∀ (g : Bool) (input : List String) (out : List Event), input.length < n →
      ∀ o, game_loop n g input out ≠ Run.fuel o := by
  induction n with
  | zero => intro g input out h; exact absurd h (Nat.not_lt_zero _)
  | succ n ih =>
    intro g input out h o
    cases g with
    | false => rw [game_loop_inactive]; intro hc; cases hc
    | true =>
      obtain ⟨rf, rd⟩ := round_consumes true input out
      simp only [game_loop, if_true]
      cases hrun : round true input out with
      | starved o1 => intro hc; cases hc
      | fuel o1 => exact absurd hrun (rf o1)
      | done v0 input0 out0 =>
        have hlt := rd v0 input0 out0 hrun
        exact ih v0.game_active input0 out0 (by omega) o

/-- The function `main` returns or is starved of input; its round budget is
never the reason it stops. -/
theorem main_budget (input : List String) (o : List Event) : main input ≠ Run.fuel o := by
  have hb := game_loop_budget (input.length + 1) true input [] (Nat.lt_succ_self _)
  unfold main
  cases hrun : game_loop (input.length + 1) true input [] with
  | starved o1 => intro hc; cases hc
  | fuel o1 => exact absurd hrun (hb o1)
  | done u input0 out0 => intro hc; cases hc

/-! ## Quit and restart on the ninth turn -/

/-- C8 (failing input): after eight placements without a line, `q` on the
ninth turn is followed by the tie banner and the end-of-round prompt, one more
line is read, and since that line is not `q` a new round starts with its own
turn prompt and read. -/
theorem C8_quit_on_ninth_turn_prompts_again :
    (main ["a1", "a2", "a3", "b2", "c2", "b3", "b1", "c1", "q", "x", "q"]).output.drop 35
      = [Event.getline "q", Event.clear, Event.tie,
          Event.printBoard ⟨.O, .X, .O, .O, .X, .X, .X, .O, .B⟩, Event.continuePrompt,
          Event.getline "x", Event.clear, Event.printBoard emptyBoard,
          Event.turnPrompt false, Event.getline "q", Event.clear] := by
  decide!

/-- C9 (failing input): after eight placements without a line, `r` on the
ninth turn is followed by the tie banner and the end-of-round prompt, not by
the turn prompt of a new round; the answer `q` to it ends the program with no
new round at all. -/
theorem C9_restart_on_ninth_turn_shows_tie :
    main ["a1", "a2", "a3", "b2", "c2", "b3", "b1", "c1", "r", "q"]
      = Run.done 0 []
          ((main ["a1", "a2", "a3", "b2", "c2", "b3", "b1", "c1", "r", "q"]).output.take 35
            ++ [Event.getline "r", Event.clear, Event.tie,
              Event.printBoard ⟨.O, .X, .O, .O, .X, .X, .X, .O, .B⟩, Event.continuePrompt,
              Event.getline "q", Event.clear]) := by
  decide!

/-! ## How a turn can end -/

/-- Whatever holds of the four kinds of branch of the comparison chain holds of
its result. -/
theorem dispatch_elim (board : Board) (line : String) (s : PromptVars)
    (P : PromptVars → Prop) (hcell : ∀ p, P (choose board p s))
    (hquit : P { s with exit_status := 2, good_response := true })
    (hrestart : P { s with exit_status := 1, good_response := true })
    (hbad : P { s with bad_response := true }) : P (dispatch board line s) := by
  unfold dispatch
  by_cases h1 : line = "A1" ∨ line = "a1"
  · rw [if_pos h1]; exact hcell _
  rw [if_neg h1]
  by_cases h2 : line = "A2" ∨ line = "a2"
  · rw [if_pos h2]; exact hcell _
  rw [if_neg h2]
  by_cases h3 : line = "A3" ∨ line = "a3"
  · rw [if_pos h3]; exact hcell _
  rw [if_neg h3]
  by_cases h4 : line = "B1" ∨ line = "b1"
  · rw [if_pos h4]; exact hcell _
  rw [if_neg h4]
  by_cases h5 : line = "B2" ∨ line = "b2"
  · rw [if_pos h5]; exact hcell _
  rw [if_neg h5]
  by_cases h6 : line = "B3" ∨ line = "b3"
  · rw [if_pos h6]; exact hcell _
  rw [if_neg h6]
  by_cases h7 : line = "C1" ∨ line = "c1"
  · rw [if_pos h7]; exact hcell _
  rw [if_neg h7]
  by_cases h8 : line = "C2" ∨ line = "c2"
  · rw [if_pos h8]; exact hcell _
  rw [if_neg h8]
  by_cases h9 : line = "C3" ∨ line = "c3"
  · rw [if_pos h9]; exact hcell _
  rw [if_neg h9]
  by_cases hq : line = "q" ∨ line = "Q"
  · rw [if_pos hq]; exact hquit
  rw [if_neg hq]
  by_cases hr : line = "r" ∨ line = "R"
  · rw [if_pos hr]; exact hrestart
  rw [if_neg hr]
  exact hbad

theorem dispatch_cases (board : Board) (line : String) (s : PromptVars) :
    (∃ p, dispatch board line s = choose board p s)
    ∨ dispatch board line s = { s with exit_status := 2, good_response := true }
    ∨ dispatch board line s = { s with exit_status := 1, good_response := true }
    ∨ dispatch board line s = { s with bad_response := true } :=
  dispatch_elim board line s
    (fun d => (∃ p, d = choose board p s)
      ∨ d = { s with exit_status := 2, good_response := true }
      ∨ d = { s with exit_status := 1, good_response := true }
      ∨ d = { s with bad_response := true })
    (fun p => Or.inl ⟨p, rfl⟩) (Or.inr (Or.inl rfl)) (Or.inr (Or.inr (Or.inl rfl)))
    (Or.inr (Or.inr (Or.inr rfl)))

theorem check_winner_true_iff (board : Board) (x_turn : Bool) :
    (check_winner board x_turn).2 = true
      ↔ ∃ c ∈ win_combinations, holds board (players_piece x_turn) c := by
  constructor
  · intro hwin
    by_contra hno
    have hnone : ∀ c ∈ win_combinations, ¬ holds board (players_piece x_turn) c :=
      fun c hc hh => hno ⟨c, hc, hh⟩
    have key := check_loop_none (players_piece x_turn) (winning_piece x_turn)
      win_combinations board hnone
    simp only [check_winner, players_piece, winning_piece] at hwin key
    rw [key] at hwin
    exact Bool.false_ne_true hwin
  · intro hex
    obtain ⟨pre, c, post, hl, hpre, hc⟩ :=
      split_first (holds board (players_piece x_turn)) win_combinations hex
    have key := check_loop_first (players_piece x_turn) (winning_piece x_turn) pre post c
      board hpre hc
    simp only [check_winner, players_piece, winning_piece] at key ⊢
    rw [hl, key]

/-- The three ways `prompt_input` can return: quit or restart with the board
as given, or a piece placed on a blank cell and `check_winner` run on it. -/
theorem prompt_loop_outcome (board : Board) (x_turn : Bool) (input : List String) :
    ∀ (s : PromptVars) (out : List Event) (r : Nat × Board) (input1 : List String)
      (out1 : List Event),
      s.good_response = false → s.exit_status = 0 →
      prompt_loop board x_turn input s out = Run.done r input1 out1 →
      r = (2, board) ∨ r = (1, board)
      ∨ ∃ p, board.get p = piece.B
          ∧ r = (if (check_winner (board.set p (players_piece x_turn)) x_turn).2 then 3 else 0,
                (check_winner (board.set p (players_piece x_turn)) x_turn).1) := by
  induction input with
  | nil =>
    intro s out r input1 out1 hs _ hrun
    simp [prompt_loop, hs] at hrun
  | cons line rest ih =>
    intro s out r input1 out1 hs h0 hrun
    rw [prompt_loop_read board x_turn line rest s out hs] at hrun
    have hg : (reset_flags s).good_response = false := by rw [reset_flags_good, hs]
    have he : (reset_flags s).exit_status = 0 := by rw [reset_flags_status, h0]
    rcases dispatch_cases board line (reset_flags s) with ⟨p, hd⟩ | hd | hd | hd
    · rw [hd] at hrun
      by_cases hb : board.get p = piece.B
      · have hgood : (choose board p (reset_flags s)).good_response = true := by
          simp [choose, hb]
        rw [prompt_loop_good _ _ _ _ _ hgood] at hrun
        have hst : (choose board p (reset_flags s)).exit_status = 0 := by
          simp [choose, hb, he]
        have hpos : (choose board p (reset_flags s)).pos = some p := by
          simp [choose, hb]
        injection hrun with hr _ _
        refine Or.inr (Or.inr ⟨p, hb, ?_⟩)
        rw [← hr]
        simp only [place, hst, hpos, if_true]
        by_cases hw : (check_winner (board.set p (players_piece x_turn)) x_turn).2 = true
        · simp [hw]
        · simp [hw]
      · have hgood : (choose board p (reset_flags s)).good_response = false := by
          simp [choose, hb, hg]
        have hst : (choose board p (reset_flags s)).exit_status = 0 := by
          simp [choose, hb, he]
        exact ih _ _ r input1 out1 hgood hst hrun
    · rw [hd, prompt_loop_good _ _ _ _ _ rfl] at hrun
      injection hrun with hr _ _
      exact Or.inl (by rw [← hr]; simp [place])
    · rw [hd, prompt_loop_good _ _ _ _ _ rfl] at hrun
      injection hrun with hr _ _
      exact Or.inr (Or.inl (by rw [← hr]; simp [place]))
    · rw [hd] at hrun
      exact ih _ _ r input1 out1 (by simpa using hg) (by simpa using he) hrun

/-! ## Counting cells -/

theorem countP_set (board : Board) (p : position) (v : piece) (f : piece → Bool) :
    (board.set p v).cells.countP f + (if f (board.get p) then 1 else 0)
      = board.cells.countP f + (if f v then 1 else 0) := by
  cases p <;>
    simp only [Board.set, Board.cells, Board.get, List.countP_cons, List.countP_nil] <;>
    omega

theorem cells_mem (board : Board) (p : position) : board.get p ∈ board.cells := by
  cases p <;> simp [Board.get, Board.cells]

theorem cells_get (board : Board) (c : piece) (h : c ∈ board.cells) :
    ∃ p, board.get p = c := by
  simp only [Board.cells, List.mem_cons, List.mem_singleton, List.not_mem_nil,
    or_false] at h
  rcases h with h | h | h | h | h | h | h | h | h
  · exact ⟨.a1, h.symm⟩
  · exact ⟨.a2, h.symm⟩
  · exact ⟨.a3, h.symm⟩
  · exact ⟨.b1, h.symm⟩
  · exact ⟨.b2, h.symm⟩
  · exact ⟨.b3, h.symm⟩
  · exact ⟨.c1, h.symm⟩
  · exact ⟨.c2, h.symm⟩
  · exact ⟨.c3, h.symm⟩

theorem cells_length (board : Board) : board.cells.length = 9 := rfl

/-- A board with fewer than nine marked cells has a blank cell. -/
theorem exists_blank (board : Board)
    (h : board.cells.countP (fun c => decide (c ≠ piece.B)) < 9) :
    ∃ p, board.get p = piece.B := by
  by_contra hno
  have hall : ∀ c ∈ board.cells, (fun c => decide (c ≠ piece.B)) c = true := by
    intro c hc
    obtain ⟨p, hp⟩ := cells_get board c hc
    have : board.get p ≠ piece.B := fun hb => hno ⟨p, hb⟩
    simpa [hp] using this
  have := List.countP_eq_length.mpr hall
  rw [cells_length] at this
  omega

/-- A board with nine marked cells has no blank cell. -/
theorem no_blank (board : Board)
    (h : board.cells.countP (fun c => decide (c ≠ piece.B)) = 9) (p : position) :
    board.get p ≠ piece.B := by
  have hlen : board.cells.countP (fun c => decide (c ≠ piece.B)) = board.cells.length := by
    rw [h, cells_length]
  have hall := List.countP_eq_length.mp hlen (board.get p) (cells_mem board p)
  simpa using hall

theorem players_piece_ne_blank (x_turn : Bool) : players_piece x_turn ≠ piece.B := by
  cases x_turn <;> simp [players_piece]

/-! ## The turns of a round -/

/-- A turn on a loop index other than 8 that leaves `round_active` set has
placed the mover's piece on a blank cell without completing a line, and has
passed the turn to the other player. -/
theorem turn_continues (i : Nat) (v v1 : RoundVars) (input input1 : List String)
    (out out1 : List Event) (hw : v.winner = false) (hi : i ≠ 8)
    (hrun : turn i v input out = Run.done v1 input1 out1)
    (hact : v1.round_active = true) :
    ∃ p, v.board.get p = piece.B
      ∧ (check_winner (v.board.set p (players_piece v.x_turn)) v.x_turn).2 = false
      ∧ v1 = { v with board := v.board.set p (players_piece v.x_turn),
                      x_turn := !v.x_turn } := by
  unfold turn prompt_input at hrun
  cases hp : prompt_loop v.board v.x_turn input PromptVars.init out with
  | starved o => rw [hp] at hrun; cases hrun
  | fuel o => rw [hp] at hrun; cases hrun
  | done r input0 out0 =>
    rw [hp] at hrun
    rcases prompt_loop_outcome v.board v.x_turn input PromptVars.init out r input0 out0
      rfl rfl hp with hr | hr | ⟨p, hb, hr⟩
    · subst hr
      simp [on_status, hw, hi] at hrun
      obtain ⟨hv, _, _⟩ := hrun
      subst hv
      simp at hact
    · subst hr
      simp [on_status, hw, hi] at hrun
      obtain ⟨hv, _, _⟩ := hrun
      subst hv
      simp at hact
    · subst hr
      by_cases hwin : (check_winner (v.board.set p (players_piece v.x_turn)) v.x_turn).2 = true
      · simp [on_status, hwin] at hrun
        obtain ⟨hv, _, _⟩ := hrun
        subst hv
        simp at hact
      · have hwin1 : (check_winner (v.board.set p (players_piece v.x_turn)) v.x_turn).2
            = false := by simpa using hwin
        simp [on_status, hwin1, hw, hi] at hrun
        obtain ⟨hv, _, _⟩ := hrun
        refine ⟨p, hb, hwin1, ?_⟩
        rw [← hv, check_winner_keep _ _ hwin1, hw]

/-- A piece placed on a blank cell gives the other player no line. -/
theorem holds_of_set_other (board : Board) (p : position) (cp op : piece)
    (c : position × position × position) (hne : cp ≠ op)
    (h : holds (board.set p cp) op c) : holds board op c := by
  unfold holds at h ⊢
  simp only [Board.get_set] at h
  obtain ⟨h1, h2, h3⟩ := h
  refine ⟨?_, ?_, ?_⟩
  · by_cases hq : c.1 = p
    · rw [if_pos hq] at h1; exact absurd h1 hne
    · rw [if_neg hq] at h1; exact h1
  · by_cases hq : c.2.1 = p
    · rw [if_pos hq] at h2; exact absurd h2 hne
    · rw [if_neg hq] at h2; exact h2
  · by_cases hq : c.2.2 = p
    · rw [if_pos hq] at h3; exact absurd h3 hne
    · rw [if_neg hq] at h3; exact h3

theorem countP_place_hit (board : Board) (p : position) (v : piece) (f : piece → Bool)
    (hb : board.get p = piece.B) (hB : f piece.B = false) (hv : f v = true) :
    (board.set p v).cells.countP f = board.cells.countP f + 1 := by
  have := countP_set board p v f
  rw [hb, hB, hv] at this
  simpa using this

theorem countP_place_miss (board : Board) (p : position) (v : piece) (f : piece → Bool)
    (hb : board.get p = piece.B) (hB : f piece.B = false) (hv : f v = false) :
    (board.set p v).cells.countP f = board.cells.countP f := by
  have := countP_set board p v f
  rw [hb, hB, hv] at this
  simpa using this

/-- What holds whenever the body of the round loop is entered. -/
theorem turn_start_invariant {i : Nat} {v : RoundVars} (h : TurnStart i v) :
    v.round_active = true ∧ v.winner = false ∧ v.game_active = true ∧ i ≤ 8
    ∧ (∀ p, v.board.get p = piece.B ∨ v.board.get p = piece.O ∨ v.board.get p = piece.X)
    ∧ v.board.cells.countP (fun c => decide (c ≠ piece.B)) = i
    ∧ v.board.cells.countP (fun c => decide (c = piece.O)) = (i + 1) / 2
    ∧ v.board.cells.countP (fun c => decide (c = piece.X)) = i / 2
    ∧ (∀ c ∈ win_combinations, ¬ holds v.board piece.O c ∧ ¬ holds v.board piece.X c)
    ∧ v.x_turn = decide (i % 2 = 1) := by
  induction h with
  | first =>
    refine ⟨rfl, rfl, rfl, by omega, ?_, rfl, rfl, rfl, by decide, rfl⟩
    intro p
    left
    cases p <;> rfl
  | @next i v v1 input input1 output output1 hprev hrun hact hi ih =>
    obtain ⟨_, hw, hga, _, hcells, hcnt, hO, hX, hlines, hturn⟩ := ih
    obtain ⟨p, hb, hwin, hv1⟩ :=
      turn_continues i v v1 input input1 output output1 hw (by omega) hrun hact
    subst hv1
    have hnone : ∀ c ∈ win_combinations,
        ¬ holds (v.board.set p (players_piece v.x_turn)) (players_piece v.x_turn) c := by
      intro c hc hh
      have := (check_winner_true_iff _ _).mpr ⟨c, hc, hh⟩
      rw [hwin] at this
      exact Bool.false_ne_true this
    obtain ⟨board, x_turn, ra, w, ga⟩ := v
    simp only at hw hga hcells hcnt hO hX hlines hturn hb hwin hnone hact ⊢
    cases x_turn with
    | false =>
      have hpar : i % 2 = 0 := by
        have : ¬ (i % 2 = 1) := by simpa using hturn.symm
        omega
      have hnb := countP_place_hit board p piece.O (fun c => decide (c ≠ piece.B)) hb rfl rfl
      have hcO := countP_place_hit board p piece.O (fun c => decide (c = piece.O)) hb rfl rfl
      have hcX := countP_place_miss board p piece.O (fun c => decide (c = piece.X)) hb rfl rfl
      refine ⟨hact, hw, hga, by omega, ?_, ?_, ?_, ?_, ?_, ?_⟩
      · intro q
        simp only [Board.get_set, players_piece]
        by_cases hq : q = p
        · simp [hq]
        · simpa [hq] using hcells q
      · show (board.set p piece.O).cells.countP (fun c => decide (c ≠ piece.B)) = i + 1
        omega
      · show (board.set p piece.O).cells.countP (fun c => decide (c = piece.O)) = (i + 1 + 1) / 2
        omega
      · show (board.set p piece.O).cells.countP (fun c => decide (c = piece.X)) = (i + 1) / 2
        omega
      · intro c hc
        refine ⟨hnone c hc, ?_⟩
        intro hh
        exact (hlines c hc).2 (holds_of_set_other board p piece.O piece.X c (by decide) hh)
      · simp; omega
    | true =>
      have hpar : i % 2 = 1 := by simpa using hturn.symm
      have hnb := countP_place_hit board p piece.X (fun c => decide (c ≠ piece.B)) hb rfl rfl
      have hcO := countP_place_miss board p piece.X (fun c => decide (c = piece.O)) hb rfl rfl
      have hcX := countP_place_hit board p piece.X (fun c => decide (c = piece.X)) hb rfl rfl
      refine ⟨hact, hw, hga, by omega, ?_, ?_, ?_, ?_, ?_, ?_⟩
      · intro q
        simp only [Board.get_set, players_piece]
        by_cases hq : q = p
        · simp [hq]
        · simpa [hq] using hcells q
      · show (board.set p piece.X).cells.countP (fun c => decide (c ≠ piece.B)) = i + 1
        omega
      · show (board.set p piece.X).cells.countP (fun c => decide (c = piece.O)) = (i + 1 + 1) / 2
        omega
      · show (board.set p piece.X).cells.countP (fun c => decide (c = piece.X)) = (i + 1) / 2
        omega
      · intro c hc
        refine ⟨?_, hnone c hc⟩
        intro hh
        exact (hlines c hc).1 (holds_of_set_other board p piece.X piece.O c (by decide) hh)
      · simp; omega

/-! ## Placements that do not end the round -/

theorem prompt_input_place (board : Board) (x_turn : Bool) (line : String) (p : position)
    (rest : List String) (out : List Event)
    (href : cell_reference line p) (hempty : board.get p = piece.B) :
    prompt_input board x_turn (line :: rest) out
      = Run.done
          (if (check_winner (board.set p (players_piece x_turn)) x_turn).2 then 3 else 0,
            (check_winner (board.set p (players_piece x_turn)) x_turn).1)
          rest
          (out ++ [Event.clear, Event.printBoard board, Event.turnPrompt x_turn,
            Event.getline line]) := by
  unfold prompt_input
  rw [prompt_loop_place board x_turn line p rest PromptVars.init out href hempty rfl rfl]
  simp [show_turn, PromptVars.init]

/-- A placement without a line on a loop index other than 8 passes the turn. -/
theorem turn_quiet (i : Nat) (v : RoundVars) (line : String) (p : position)
    (rest : List String) (out : List Event) (hi : i ≠ 8) (hw : v.winner = false)
    (href : cell_reference line p) (hempty : v.board.get p = piece.B)
    (hquiet : (check_winner (v.board.set p (players_piece v.x_turn)) v.x_turn).2 = false) :
    turn i v (line :: rest) out
      = Run.done { v with board := v.board.set p (players_piece v.x_turn),
                          x_turn := !v.x_turn }
          rest
          (out ++ [Event.clear, Event.printBoard v.board, Event.turnPrompt v.x_turn,
            Event.getline line]) := by
  unfold turn
  rw [prompt_input_place v.board v.x_turn line p rest out href hempty]
  simp [hquiet, on_status, hw, hi, check_winner_keep _ _ hquiet]

/-- A placement without a line on loop index 8 is followed by the tie screen. -/
theorem turn_last_quiet (v : RoundVars) (line : String) (p : position)
    (rest : List String) (out : List Event) (hw : v.winner = false)
    (href : cell_reference line p) (hempty : v.board.get p = piece.B)
    (hquiet : (check_winner (v.board.set p (players_piece v.x_turn)) v.x_turn).2 = false) :
    turn 8 v (line :: rest) out
      = Run.done { v with board := v.board.set p (players_piece v.x_turn),
                          game_active :=
                            if (getline rest).1 = "q" ∨ (getline rest).1 = "Q" then false
                            else true }
          (getline rest).2
          (out ++ [Event.clear, Event.printBoard v.board, Event.turnPrompt v.x_turn,
              Event.getline line]
            ++ [Event.clear, Event.tie,
              Event.printBoard (v.board.set p (players_piece v.x_turn)),
              Event.continuePrompt, Event.getline (getline rest).1]) := by
  unfold turn
  rw [prompt_input_place v.board v.x_turn line p rest out href hempty]
  simp [hquiet, on_status, hw, check_winner_keep _ _ hquiet, end_game_prompt]

/-- A placement that completes a line is followed by the winner's screen,
whatever the loop index. -/
theorem turn_win (i : Nat) (v : RoundVars) (line : String) (p : position)
    (rest : List String) (out : List Event)
    (href : cell_reference line p) (hempty : v.board.get p = piece.B)
    (hwin : (check_winner (v.board.set p (players_piece v.x_turn)) v.x_turn).2 = true) :
    turn i v (line :: rest) out
      = Run.done
          { v with board := (check_winner (v.board.set p (players_piece v.x_turn)) v.x_turn).1,
                   round_active := false, winner := true,
                   game_active :=
                     if (getline rest).1 = "q" ∨ (getline rest).1 = "Q" then false
                     else true }
          (getline rest).2
          (out ++ [Event.clear, Event.printBoard v.board, Event.turnPrompt v.x_turn,
              Event.getline line]
            ++ [Event.clear, Event.wins v.x_turn,
              Event.printBoard
                (check_winner (v.board.set p (players_piece v.x_turn)) v.x_turn).1,
              Event.continuePrompt, Event.getline (getline rest).1]) := by
  unfold turn
  rw [prompt_input_place v.board v.x_turn line p rest out href hempty]
  simp [hwin, on_status, end_game_prompt]

theorem quiet_moves_append (ms1 : List (String × position)) :
    ∀ (board : Board) (x_turn : Bool) (ms2 : List (String × position)),
      quiet_moves board x_turn (ms1 ++ ms2)
        ↔ quiet_moves board x_turn ms1
          ∧ quiet_moves (after_moves board x_turn ms1) (turn_after x_turn ms1.length) ms2 := by
  induction ms1 with
  | nil => intro board x_turn ms2; simp [quiet_moves, after_moves, turn_after]
  | cons m ms ih =>
    intro board x_turn ms2
    simp only [List.cons_append, quiet_moves, after_moves, List.length_cons, turn_after,
      List.append_eq, ih]
    tauto

theorem after_moves_append (ms1 : List (String × position)) :
    ∀ (board : Board) (x_turn : Bool) (ms2 : List (String × position)),
      after_moves board x_turn (ms1 ++ ms2)
        = after_moves (after_moves board x_turn ms1) (turn_after x_turn ms1.length) ms2 := by
  induction ms1 with
  | nil => intro board x_turn ms2; rfl
  | cons m ms ih =>
    intro board x_turn ms2
    simp only [List.cons_append, after_moves, List.length_cons, turn_after, List.append_eq,
      ih]

theorem moves_trace_append (ms1 : List (String × position)) :
    ∀ (board : Board) (x_turn : Bool) (ms2 : List (String × position)),
      moves_trace board x_turn (ms1 ++ ms2)
        = moves_trace board x_turn ms1
          ++ moves_trace (after_moves board x_turn ms1) (turn_after x_turn ms1.length) ms2 := by
  induction ms1 with
  | nil => intro board x_turn ms2; rfl
  | cons m ms ih =>
    intro board x_turn ms2
    simp only [List.cons_append, moves_trace, after_moves, List.length_cons, turn_after,
      List.append_eq, ih, List.append_assoc, List.nil_append]

theorem moves_trace_no_end (ms : List (String × position)) :
    ∀ (board : Board) (x_turn : Bool), ∀ e ∈ moves_trace board x_turn ms,
      e.endOfRound = false := by
  induction ms with
  | nil => intro board x_turn e he; cases he
  | cons m ms ih =>
    intro board x_turn e he
    simp only [moves_trace, List.mem_append, List.mem_cons, List.mem_singleton,
      List.not_mem_nil, or_false] at he
    rcases he with (rfl | rfl | rfl | rfl) | he
    · rfl
    · rfl
    · rfl
    · rfl
    · exact ih _ _ e he

/-- The marked cells after a sequence of placements on blank cells. -/
theorem after_moves_marked (ms : List (String × position)) :
    ∀ (board : Board) (x_turn : Bool), quiet_moves board x_turn ms →
      (after_moves board x_turn ms).cells.countP (fun c => decide (c ≠ piece.B))
        = board.cells.countP (fun c => decide (c ≠ piece.B)) + ms.length := by
  induction ms with
  | nil => intro board x_turn _; rfl
  | cons m ms ih =>
    intro board x_turn hq
    obtain ⟨_, hb, _, hrest⟩ := hq
    have hstep := countP_place_hit board m.2 (players_piece x_turn)
      (fun c => decide (c ≠ piece.B)) hb rfl
      (by simpa using players_piece_ne_blank x_turn)
    simp only [after_moves, List.length_cons]
    rw [ih _ _ hrest, hstep]
    omega

/-- The round loop over the indices from `i` on passes through a sequence of
placements without a line, one loop index per placement, as long as index 8 is
not among them. -/
theorem round_loop_quiet (ms : List (String × position)) :
    ∀ (i n : Nat) (v : RoundVars) (rest : List String) (out : List Event),
      i + ms.length ≤ 8 → v.round_active = true → v.winner = false →
      quiet_moves v.board v.x_turn ms →
      round_loop (List.range' i (ms.length + n)) v (ms.map Prod.fst ++ rest) out
        = round_loop (List.range' (i + ms.length) n)
            { v with board := after_moves v.board v.x_turn ms,
                     x_turn := turn_after v.x_turn ms.length }
            rest (out ++ moves_trace v.board v.x_turn ms) := by
  induction ms with
  | nil =>
    intro i n v rest out _ _ _ _
    simp [after_moves, turn_after, moves_trace]
  | cons m ms ih =>
    intro i n v rest out hi hact hw hq
    obtain ⟨href, hb, hquiet, hrest⟩ := hq
    simp only [List.length_cons] at hi
    have hlen : (m :: ms).length + n = (ms.length + n) + 1 := by
      simp only [List.length_cons]; omega
    rw [hlen, List.range'_succ]
    simp only [List.map_cons, List.cons_append, round_loop, hact, if_true]
    rw [turn_quiet i v m.1 m.2 _ out (by omega) hw href hb hquiet]
    simp only
    rw [ih (i + 1) n
      { v with board := v.board.set m.2 (players_piece v.x_turn), x_turn := !v.x_turn }
      rest _ (by omega) hact hw hrest]
    have hidx : i + 1 + ms.length = i + (ms.length + 1) := by omega
    simp only [after_moves, turn_after, moves_trace, List.length_cons, List.append_assoc,
      hidx, hact, List.cons_append, List.nil_append]

/-! ## What is shown first -/

theorem prompt_loop_output (board : Board) (x_turn : Bool) (input : List String) :
    ∀ (s : PromptVars) (out : List Event),
      ∃ tail, (prompt_loop board x_turn input s out).output = out ++ tail := by
  induction input with
  | nil =>
    intro s out
    by_cases hs : s.good_response = true
    · rw [prompt_loop_good _ _ _ _ _ hs]; exact ⟨[], by simp [Run.output]⟩
    · exact ⟨show_turn board x_turn s, by simp [prompt_loop, hs, Run.output]⟩
  | cons line rest ih =>
    intro s out
    by_cases hs : s.good_response = true
    · rw [prompt_loop_good _ _ _ _ _ hs]; exact ⟨[], by simp [Run.output]⟩
    · have hs1 : s.good_response = false := by simpa using hs
      rw [prompt_loop_read board x_turn line rest s out hs1]
      obtain ⟨tail, ht⟩ := ih (dispatch board line (reset_flags s))
        (out ++ show_turn board x_turn s ++ [Event.getline line])
      exact ⟨show_turn board x_turn s ++ [Event.getline line] ++ tail, by
        rw [ht]; simp only [List.append_assoc]⟩

/-- A prompt loop that is still running shows the board and the turn prompt
before anything else. -/
theorem prompt_loop_shows (board : Board) (x_turn : Bool) (input : List String)
    (s : PromptVars) (out : List Event) (hs : s.good_response = false) :
    ∃ tail, (prompt_loop board x_turn input s out).output
      = out ++ show_turn board x_turn s ++ tail := by
  cases input with
  | nil => exact ⟨[], by simp [prompt_loop, hs, Run.output]⟩
  | cons line rest =>
    rw [prompt_loop_read board x_turn line rest s out hs]
    obtain ⟨tail, ht⟩ := prompt_loop_output board x_turn rest
      (dispatch board line (reset_flags s))
      (out ++ show_turn board x_turn s ++ [Event.getline line])
    exact ⟨[Event.getline line] ++ tail, by rw [ht]; simp only [List.append_assoc]⟩

theorem turn_shows (i : Nat) (v : RoundVars) (input : List String) (out : List Event) :
    ∃ tail, (turn i v input out).output
      = out ++ show_turn v.board v.x_turn PromptVars.init ++ tail := by
  obtain ⟨tail, ht⟩ := prompt_loop_shows v.board v.x_turn input PromptVars.init out rfl
  unfold turn prompt_input
  cases hrun : prompt_loop v.board v.x_turn input PromptVars.init out with
  | starved o =>
    rw [hrun] at ht
    exact ⟨tail, ht⟩
  | fuel o =>
    rw [hrun] at ht
    exact ⟨tail, ht⟩
  | done r input0 out0 =>
    rw [hrun] at ht
    simp only [Run.output] at ht
    simp only
    split_ifs
    · refine ⟨tail ++ [Event.clear,
          if (on_status r.1 { v with board := r.2 }).winner then Event.wins
            (on_status r.1 { v with board := r.2 }).x_turn else Event.tie,
          Event.printBoard (on_status r.1 { v with board := r.2 }).board,
          Event.continuePrompt, Event.getline (getline input0).1], ?_⟩
      simp only [Run.output, end_game_prompt, ht, List.append_assoc]
    · exact ⟨tail, by simp only [Run.output, ht]⟩

theorem round_loop_output (is : List Nat) :
    ∀ (v : RoundVars) (input : List String) (out : List Event),
      ∃ tail, (round_loop is v input out).output = out ++ tail := by
  induction is with
  | nil => intro v input out; exact ⟨[], by simp [round_loop, Run.output]⟩
  | cons i is ih =>
    intro v input out
    by_cases ha : v.round_active = true
    · obtain ⟨t1, ht1⟩ := turn_shows i v input out
      simp only [round_loop, ha, if_true]
      cases hrun : turn i v input out with
      | starved o =>
        rw [hrun] at ht1
        exact ⟨show_turn v.board v.x_turn PromptVars.init ++ t1, by
          simp only [Run.output] at ht1 ⊢; rw [ht1]; simp only [List.append_assoc]⟩
      | fuel o =>
        rw [hrun] at ht1
        exact ⟨show_turn v.board v.x_turn PromptVars.init ++ t1, by
          simp only [Run.output] at ht1 ⊢; rw [ht1]; simp only [List.append_assoc]⟩
      | done v0 input0 out0 =>
        rw [hrun] at ht1
        simp only [Run.output] at ht1
        obtain ⟨t2, ht2⟩ := ih v0 input0 out0
        exact ⟨show_turn v.board v.x_turn PromptVars.init ++ t1 ++ t2, by
          simp only; rw [ht2, ht1]; simp only [List.append_assoc]⟩
    · have hf : v.round_active = false := by simpa using ha
      rw [round_loop_inactive _ _ _ _ hf]
      exact ⟨[], by simp [Run.output]⟩

theorem round_loop_step (i : Nat) (is : List Nat) (v : RoundVars) (input : List String)
    (out : List Event) (h : v.round_active = true) :
    round_loop (i :: is) v input out
      = match turn i v input out with
        | Run.starved o => Run.starved o
        | Run.fuel o => Run.fuel o
        | Run.done v1 input1 out1 => round_loop is v1 input1 out1 := by
  rw [round_loop]
  simp only [h, if_true]

/-- A round first shows the empty board and the turn prompt for O. -/
theorem round_shows (input : List String) (out : List Event) :
    ∃ tail, (round true input out).output
      = out ++ [Event.clear, Event.printBoard emptyBoard, Event.turnPrompt false] ++ tail := by
  obtain ⟨t1, ht1⟩ := turn_shows 0 (new_round true) input out
  have hshow : show_turn (new_round true).board (new_round true).x_turn PromptVars.init
      = [Event.clear, Event.printBoard emptyBoard, Event.turnPrompt false] := rfl
  rw [hshow] at ht1
  unfold round
  rw [round_loop_step 0 _ (new_round true) input out rfl]
  cases hrun : turn 0 (new_round true) input out with
  | starved o => rw [hrun] at ht1; exact ⟨t1, ht1⟩
  | fuel o => rw [hrun] at ht1; exact ⟨t1, ht1⟩
  | done v0 input0 out0 =>
    rw [hrun] at ht1
    simp only [Run.output] at ht1
    obtain ⟨t2, ht2⟩ := round_loop_output [1, 2, 3, 4, 5, 6, 7, 8] v0 input0 out0
    exact ⟨t1 ++ t2, by simp only; rw [ht2, ht1]; simp only [List.append_assoc]⟩

theorem game_loop_output (n : Nat) :
    ∀ (g : Bool) (input : List String) (out : List Event),
      ∃ tail, (game_loop n g input out).output = out ++ tail := by
  induction n with
  | zero =>
    intro g input out
    cases g <;> exact ⟨[], by simp [game_loop, Run.output]⟩
  | succ n ih =>
    intro g input out
    cases g with
    | false => rw [game_loop_inactive]; exact ⟨[], by simp [Run.output]⟩
    | true =>
      obtain ⟨t1, ht1⟩ := round_shows input out
      simp only [game_loop, if_true]
      cases hrun : round true input out with
      | starved o =>
        rw [hrun] at ht1
        exact ⟨[Event.clear, Event.printBoard emptyBoard, Event.turnPrompt false] ++ t1, by
          simp only [Run.output] at ht1 ⊢; rw [ht1, List.append_assoc]⟩
      | fuel o =>
        rw [hrun] at ht1
        exact ⟨[Event.clear, Event.printBoard emptyBoard, Event.turnPrompt false] ++ t1, by
          simp only [Run.output] at ht1 ⊢; rw [ht1, List.append_assoc]⟩
      | done v0 input0 out0 =>
        rw [hrun] at ht1
        simp only [Run.output] at ht1
        obtain ⟨t2, ht2⟩ := ih v0.game_active input0 out0
        exact ⟨[Event.clear, Event.printBoard emptyBoard, Event.turnPrompt false] ++ t1 ++ t2,
          by simp only; rw [ht2, ht1]; simp only [List.append_assoc]⟩

/-- While `game_active` is set the game loop starts a round: the empty board
and the turn prompt for O come next. -/
theorem game_loop_shows (n : Nat) (input : List String) (out : List Event) :
    ∃ tail, (game_loop (n + 1) true input out).output
      = out ++ [Event.clear, Event.printBoard emptyBoard, Event.turnPrompt false] ++ tail := by
  obtain ⟨t1, ht1⟩ := round_shows input out
  simp only [game_loop, if_true]
  cases hrun : round true input out with
  | starved o => rw [hrun] at ht1; exact ⟨t1, ht1⟩
  | fuel o => rw [hrun] at ht1; exact ⟨t1, ht1⟩
  | done v0 input0 out0 =>
    rw [hrun] at ht1
    simp only [Run.output] at ht1
    obtain ⟨t2, ht2⟩ := game_loop_output n v0.game_active input0 out0
    exact ⟨t1 ++ t2, by simp only; rw [ht2, ht1]; simp only [List.append_assoc]⟩

/-- The turn with loop index 8 always runs `end_game_prompt`. -/
theorem turn_ninth (v : RoundVars) (input input1 : List String) (out out1 : List Event)
    (r : Nat × Board) (hw : v.winner = false) (hact : v.round_active = true)
    (hrun : prompt_input v.board v.x_turn input out = Run.done r input1 out1) :
    turn 8 v input out
      = Run.done
          { board := r.2, x_turn := v.x_turn, round_active := decide (r.1 = 0),
            winner := decide (r.1 = 3),
            game_active :=
              if (getline input1).1 = "q" ∨ (getline input1).1 = "Q" then false else true }
          (getline input1).2
          (out1 ++ [Event.clear, if r.1 = 3 then Event.wins v.x_turn else Event.tie,
            Event.printBoard r.2, Event.continuePrompt, Event.getline (getline input1).1]) := by
  have hout := prompt_loop_outcome v.board v.x_turn input PromptVars.init out r input1 out1
    rfl rfl hrun
  unfold turn
  rw [hrun]
  rcases hout with hr | hr | ⟨p, _, hr⟩
  · subst hr
    simp [on_status, hw, end_game_prompt]
  · subst hr
    simp [on_status, hw, end_game_prompt]
  · subst hr
    by_cases hwin : (check_winner (v.board.set p (players_piece v.x_turn)) v.x_turn).2 = true
    · simp [hwin, on_status, end_game_prompt]
    · simp [hwin, on_status, hw, hact, end_game_prompt]

/-! ## Claims about a round -/

/-- C19: whenever the body of the round loop is entered with loop index `i`,
`i` is at most 8, every cell is blank, O or X, exactly `i` cells are marked,
`(i + 1) / 2` of them O and `i / 2` of them X, neither player holds a line,
O is to move exactly when `i` is even, and some cell is blank. -/
theorem C19_turn_start_invariant (i : Nat) (v : RoundVars) (h : TurnStart i v) :
    i ≤ 8
    ∧ (∀ p, v.board.get p = piece.B ∨ v.board.get p = piece.O ∨ v.board.get p = piece.X)
    ∧ v.board.cells.countP (fun c => decide (c ≠ piece.B)) = i
    ∧ v.board.cells.countP (fun c => decide (c = piece.O)) = (i + 1) / 2
    ∧ v.board.cells.countP (fun c => decide (c = piece.X)) = i / 2
    ∧ (∀ c ∈ win_combinations, ¬ holds v.board piece.O c ∧ ¬ holds v.board piece.X c)
    ∧ (v.x_turn = false ↔ i % 2 = 0)
    ∧ ∃ p, v.board.get p = piece.B := by
  obtain ⟨_, _, _, hle, hcells, hcnt, hO, hX, hlines, hturn⟩ := turn_start_invariant h
  refine ⟨hle, hcells, hcnt, hO, hX, hlines, ?_, exists_blank v.board (by omega)⟩
  rw [hturn]
  simp only [decide_eq_false_iff_not]
  omega

/-- C19 (witness): the ninth turn after a2, b2, a3, b3, b1, c2, c1, c3. -/
theorem C19_turn_start_invariant_witness :
    TurnStart 8 ninthTurnTwoLines
    ∧ 8 ≤ 8
    ∧ (∀ p, ninthTurnTwoLines.board.get p = piece.B ∨ ninthTurnTwoLines.board.get p = piece.O
        ∨ ninthTurnTwoLines.board.get p = piece.X)
    ∧ ninthTurnTwoLines.board.cells.countP (fun c => decide (c ≠ piece.B)) = 8
    ∧ ninthTurnTwoLines.board.cells.countP (fun c => decide (c = piece.O)) = (8 + 1) / 2
    ∧ ninthTurnTwoLines.board.cells.countP (fun c => decide (c = piece.X)) = 8 / 2
    ∧ (∀ c ∈ win_combinations, ¬ holds ninthTurnTwoLines.board piece.O c
        ∧ ¬ holds ninthTurnTwoLines.board piece.X c)
    ∧ (ninthTurnTwoLines.x_turn = false ↔ 8 % 2 = 0)
    ∧ ∃ p, ninthTurnTwoLines.board.get p = piece.B :=
  ⟨ninthTurnTwoLines_start, C19_turn_start_invariant 8 ninthTurnTwoLines ninthTurnTwoLines_start⟩

/-- The round loop over index 8 alone, on a placement without a line. -/
theorem round_loop_last_quiet (v : RoundVars) (line : String) (p : position)
    (rest : List String) (out : List Event) (hact : v.round_active = true)
    (hw : v.winner = false) (href : cell_reference line p) (hempty : v.board.get p = piece.B)
    (hquiet : (check_winner (v.board.set p (players_piece v.x_turn)) v.x_turn).2 = false) :
    round_loop (List.range' 8 1) v (line :: rest) out
      = Run.done { v with board := v.board.set p (players_piece v.x_turn),
                          game_active :=
                            if (getline rest).1 = "q" ∨ (getline rest).1 = "Q" then false
                            else true }
          (getline rest).2
          (out ++ [Event.clear, Event.printBoard v.board, Event.turnPrompt v.x_turn,
              Event.getline line]
            ++ [Event.clear, Event.tie,
              Event.printBoard (v.board.set p (players_piece v.x_turn)),
              Event.continuePrompt, Event.getline (getline rest).1]) := by
  have hr : List.range' 8 1 = [8] := rfl
  rw [hr, round_loop_step 8 [] v _ out hact,
    turn_last_quiet v line p rest out hw href hempty hquiet]
  simp only [round_loop]

/-- Nine placements without a line, from the empty board with O to move. -/
theorem round_nine_quiet (ms : List (String × position)) (m : String × position)
    (rest : List String) (out : List Event) (hlen : ms.length = 8)
    (hq : quiet_moves emptyBoard false (ms ++ [m])) :
    round true ((ms ++ [m]).map Prod.fst ++ rest) out
      = Run.done
          { board := after_moves emptyBoard false (ms ++ [m]), x_turn := false,
            round_active := true, winner := false,
            game_active :=
              if (getline rest).1 = "q" ∨ (getline rest).1 = "Q" then false else true }
          (getline rest).2
          (out ++ moves_trace emptyBoard false (ms ++ [m])
            ++ [Event.clear, Event.tie,
              Event.printBoard (after_moves emptyBoard false (ms ++ [m])),
              Event.continuePrompt, Event.getline (getline rest).1]) := by
  obtain ⟨hq8, hq9⟩ := (quiet_moves_append ms emptyBoard false [m]).mp hq
  obtain ⟨href, hb, hquiet, _⟩ := hq9
  have hta : turn_after false ms.length = false := by rw [hlen]; rfl
  rw [hta] at hquiet
  have hidx : [0, 1, 2, 3, 4, 5, 6, 7, 8] = List.range' 0 (ms.length + 1) := by
    rw [hlen]; rfl
  have hstep := round_loop_quiet ms 0 1 (new_round true) (m.1 :: rest) out
    (by omega) rfl rfl hq8
  unfold round
  rw [hidx]
  simp only [List.map_append, List.map_cons, List.map_nil, List.append_assoc,
    List.singleton_append]
  rw [hstep]
  have hz : 0 + ms.length = 8 := by omega
  rw [hz]
  have hboard : (new_round true).board = emptyBoard := rfl
  have hx : (new_round true).x_turn = false := rfl
  rw [hboard, hx, hta,
    round_loop_last_quiet _ m.1 m.2 rest _ rfl rfl href hb hquiet]
  simp only [after_moves_append, moves_trace_append, after_moves, moves_trace, hta,
    List.append_assoc, List.cons_append, List.nil_append, new_round]

/-- Nine answers in a row that place pieces without a line end the round in a
tie on a full board, with nothing of the end-of-round screen shown before. -/
theorem round_tie_of_nine (ms : List (String × position)) (rest : List String)
    (out : List Event) (hlen : ms.length = 9) (hq : quiet_moves emptyBoard false ms) :
    round true (ms.map Prod.fst ++ rest) out
      = Run.done
          { board := after_moves emptyBoard false ms, x_turn := false,
            round_active := true, winner := false,
            game_active :=
              if (getline rest).1 = "q" ∨ (getline rest).1 = "Q" then false else true }
          (getline rest).2
          (out ++ moves_trace emptyBoard false ms
            ++ [Event.clear, Event.tie, Event.printBoard (after_moves emptyBoard false ms),
              Event.continuePrompt, Event.getline (getline rest).1])
    ∧ (∀ p, (after_moves emptyBoard false ms).get p ≠ piece.B)
    ∧ (∀ e ∈ moves_trace emptyBoard false ms, e.endOfRound = false) := by
  have hsplit : ms = ms.take 8 ++ ms.drop 8 := (List.take_append_drop 8 ms).symm
  have hdrop : (ms.drop 8).length = 1 := by rw [List.length_drop, hlen]
  obtain ⟨m, hm⟩ := List.length_eq_one.mp hdrop
  have htake : (ms.take 8).length = 8 := by rw [List.length_take, hlen]; rfl
  rw [hm] at hsplit
  have hq1 := hq
  rw [hsplit] at hq1
  refine ⟨?_, ?_, moves_trace_no_end ms emptyBoard false⟩
  · have key := round_nine_quiet (ms.take 8) m rest out htake hq1
    rw [← hsplit] at key
    exact key
  · have hcount := after_moves_marked ms emptyBoard false hq
    rw [hlen] at hcount
    exact no_blank _ hcount

/-- A turn on a loop index other than 8 that ends with exit status 0 adds
nothing to what `prompt_input` wrote and passes the turn. -/
theorem turn_placed_early (i : Nat) (v : RoundVars) (input input1 : List String)
    (out out1 : List Event) (b1 : Board) (hi : i ≠ 8) (hw : v.winner = false)
    (hrun : prompt_input v.board v.x_turn input out = Run.done (0, b1) input1 out1) :
    turn i v input out
      = Run.done { v with board := b1, x_turn := !v.x_turn } input1 out1 := by
  unfold turn
  rw [hrun]
  simp [on_status, hw, hi]

/-- A board left by `prompt_input` with exit status 0 has one more marked cell. -/
theorem marked_after_placed (board : Board) (x_turn : Bool) (input input1 : List String)
    (out out1 : List Event) (b1 : Board)
    (hrun : prompt_input board x_turn input out = Run.done (0, b1) input1 out1) :
    b1.cells.countP (fun c => decide (c ≠ piece.B))
      = board.cells.countP (fun c => decide (c ≠ piece.B)) + 1 := by
  rcases prompt_loop_outcome board x_turn input PromptVars.init out (0, b1) input1 out1
    rfl rfl hrun with hr | hr | ⟨p, hb, hr⟩
  · injection hr with h1 _; cases h1
  · injection hr with h1 _; cases h1
  · injection hr with h1 h2
    have hflag : (check_winner (board.set p (players_piece x_turn)) x_turn).2 = false := by
      cases hf : (check_winner (board.set p (players_piece x_turn)) x_turn).2 with
      | false => rfl
      | true => rw [hf] at h1; simp at h1
    rw [h2, check_winner_keep _ _ hflag]
    exact countP_place_hit board p (players_piece x_turn) (fun c => decide (c ≠ piece.B))
      hb rfl (by simpa using players_piece_ne_blank x_turn)

/-- C11: when nine answers in a row are cell references to blank cells and
none gives its player a line, the round returns after the ninth: up to then
only turn prompts and reads happen, then the tie screen follows, the winner
flag is false, no cell is blank, and only the answer to the end-of-round
prompt is read after the ninth placement.  More generally, whatever lines are
rejected in between: in the turn with loop index 8 a placement without a line
ends the round loop with the tie screen, the winner flag false and no blank
cell, and in a turn with a smaller loop index it leaves the round running
with nothing but the turn's own prompts written. -/
theorem C11_nine_placements_tie :
    (∀ (ms : List (String × position)) (rest : List String) (out : List Event),
      ms.length = 9 → quiet_moves emptyBoard false ms →
      round true (ms.map Prod.fst ++ rest) out
        = Run.done
            { board := after_moves emptyBoard false ms, x_turn := false,
              round_active := true, winner := false,
              game_active :=
                if (getline rest).1 = "q" ∨ (getline rest).1 = "Q" then false else true }
            (getline rest).2
            (out ++ moves_trace emptyBoard false ms
              ++ [Event.clear, Event.tie, Event.printBoard (after_moves emptyBoard false ms),
                Event.continuePrompt, Event.getline (getline rest).1])
      ∧ (∀ p, (after_moves emptyBoard false ms).get p ≠ piece.B)
      ∧ (∀ e ∈ moves_trace emptyBoard false ms, e.endOfRound = false))
    ∧ (∀ (v : RoundVars) (input input1 : List String) (out out1 : List Event) (b1 : Board),
      TurnStart 8 v →
      prompt_input v.board v.x_turn input out = Run.done (0, b1) input1 out1 →
      round_loop [8] v input out
        = Run.done
            { board := b1, x_turn := v.x_turn, round_active := true, winner := false,
              game_active :=
                if (getline input1).1 = "q" ∨ (getline input1).1 = "Q" then false else true }
            (getline input1).2
            (out1 ++ [Event.clear, Event.tie, Event.printBoard b1, Event.continuePrompt,
              Event.getline (getline input1).1])
      ∧ ∀ p, b1.get p ≠ piece.B)
    ∧ (∀ (i : Nat) (v : RoundVars) (input input1 : List String) (out out1 : List Event)
        (b1 : Board),
      TurnStart i v → i < 8 →
      prompt_input v.board v.x_turn input out = Run.done (0, b1) input1 out1 →
      turn i v input out
        = Run.done { v with board := b1, x_turn := !v.x_turn } input1 out1
      ∧ v.round_active = true ∧ v.winner = false) := by
  refine ⟨fun ms rest out hlen hq => round_tie_of_nine ms rest out hlen hq, ?_, ?_⟩
  · intro v input input1 out out1 b1 hstart hrun
    obtain ⟨hact, hw, _, _, _, hcnt, _⟩ := turn_start_invariant hstart
    refine ⟨?_, ?_⟩
    · rw [round_loop_step 8 [] v input out hact,
        turn_ninth v input input1 out out1 (0, b1) hw hact hrun]
      simp [round_loop]
    · have hmarked := marked_after_placed v.board v.x_turn input input1 out out1 b1 hrun
      rw [hcnt] at hmarked
      exact no_blank b1 hmarked
  · intro i v input input1 out out1 b1 hstart hi hrun
    obtain ⟨hact, hw, _⟩ := turn_start_invariant hstart
    exact ⟨turn_placed_early i v input input1 out out1 b1 (by omega) hw hrun, hact, hw⟩

/-- C11 (witness): the nine answers of `tieMoves`, answered by `x` at the end
of the round. -/
theorem C11_nine_placements_tie_witness :
    tieMoves.length = 9 ∧ quiet_moves emptyBoard false tieMoves
    ∧ round true (tieMoves.map Prod.fst ++ ["x"]) []
      = Run.done
          { board := after_moves emptyBoard false tieMoves, x_turn := false,
            round_active := true, winner := false,
            game_active :=
              if (getline ["x"]).1 = "q" ∨ (getline ["x"]).1 = "Q" then false else true }
          (getline ["x"]).2
          ([] ++ moves_trace emptyBoard false tieMoves
            ++ [Event.clear, Event.tie,
              Event.printBoard (after_moves emptyBoard false tieMoves),
              Event.continuePrompt, Event.getline (getline ["x"]).1])
    ∧ (∀ p, (after_moves emptyBoard false tieMoves).get p ≠ piece.B)
    ∧ (∀ e ∈ moves_trace emptyBoard false tieMoves, e.endOfRound = false) :=
  ⟨rfl, by decide!, C11_nine_placements_tie.1 tieMoves ["x"] [] rfl (by decide!)⟩

theorem turn_after_parity (n : Nat) :
    ∀ x_turn : Bool, turn_after x_turn n = if n % 2 = 0 then x_turn else !x_turn := by
  induction n with
  | zero => intro x_turn; rfl
  | succ n ih =>
    intro x_turn
    simp only [turn_after, ih]
    by_cases hn : n % 2 = 0
    · have h1 : (n + 1) % 2 ≠ 0 := by omega
      rw [if_pos hn, if_neg h1]
    · have h1 : (n + 1) % 2 = 0 := by omega
      rw [if_neg hn, if_pos h1, Bool.not_not]

/-- Placements on blank cells leave the marked cells as they are. -/
theorem after_moves_keeps (ms : List (String × position)) :
    ∀ (board : Board) (x_turn : Bool) (q : position),
      quiet_moves board x_turn ms → board.get q ≠ piece.B →
      (after_moves board x_turn ms).get q = board.get q := by
  induction ms with
  | nil => intro board x_turn q _ _; rfl
  | cons m ms ih =>
    intro board x_turn q hq hmarked
    obtain ⟨_, hb, _, hrest⟩ := hq
    have hne : q ≠ m.2 := by
      intro h
      rw [h] at hmarked
      exact hmarked hb
    have hset : (board.set m.2 (players_piece x_turn)).get q = board.get q := by
      rw [Board.get_set, if_neg hne]
    simp only [after_moves]
    rw [ih _ _ q hrest (by rw [hset]; exact hmarked), hset]

/-- The cell of answer number `j + 1` of a sequence of placements on blank
cells holds the piece of the player who was to move after `j` placements. -/
theorem after_moves_get (ms : List (String × position)) :
    ∀ (board : Board) (x_turn : Bool) (j : Nat) (mv : String × position),
      quiet_moves board x_turn ms → ms[j]? = some mv →
      (after_moves board x_turn ms).get mv.2 = players_piece (turn_after x_turn j) := by
  induction ms with
  | nil => intro board x_turn j mv _ hj; simp at hj
  | cons m ms ih =>
    intro board x_turn j mv hq hj
    obtain ⟨_, _, _, hrest⟩ := hq
    cases j with
    | zero =>
      simp only [List.getElem?_cons_zero, Option.some.injEq] at hj
      subst hj
      simp only [after_moves, turn_after]
      have hcell : (board.set m.2 (players_piece x_turn)).get m.2 = players_piece x_turn := by
        rw [Board.get_set, if_pos rfl]
      rw [after_moves_keeps ms _ _ m.2 hrest
        (by rw [hcell]; exact players_piece_ne_blank x_turn), hcell]
    | succ j =>
      simp only [List.getElem?_cons_succ] at hj
      simp only [after_moves, turn_after]
      exact ih _ _ j mv hrest hj

/-- C12: in every round the first placement is O's and placements alternate.
Whenever the body of the round loop is entered with loop index `i`, exactly `i`
cells are marked, so the placement of this turn is number `i + 1` of the round,
and O is to move exactly when `i` is even; if the turn returns 1 or 2 nothing is
placed, otherwise the piece placed is O when `i` is even and X when `i` is odd;
and a turn that leaves the round running has placed exactly that one piece and
passed the turn to the other player.  Run from the start of a round, answer
number `j + 1` of a sequence of placements writes O when `j` is even and X when
`j` is odd.  A restart ends the round loop at once, and every round the game
loop starts, whatever the round before left behind, opens with the empty board
and the turn prompt for O. -/
theorem C12_alternate_from_O :
    (∀ (i : Nat) (v : RoundVars), TurnStart i v →
      v.board.cells.countP (fun c => decide (c ≠ piece.B)) = i
      ∧ (v.x_turn = false ↔ i % 2 = 0)
      ∧ (∀ (line : String) (p : position) (rest : List String) (s : PromptVars)
          (out : List Event),
          cell_reference line p → v.board.get p = piece.B →
          s.good_response = false → s.exit_status = 0 →
          ∃ st, prompt_loop v.board v.x_turn (line :: rest) s out
            = Run.done
                (st, (check_winner
                  (v.board.set p (if i % 2 = 0 then piece.O else piece.X)) v.x_turn).1)
                rest (out ++ show_turn v.board v.x_turn s ++ [Event.getline line]))
      ∧ (∀ (input input1 : List String) (out out1 : List Event) (r : Nat × Board),
          prompt_input v.board v.x_turn input out = Run.done r input1 out1 →
          ((r.1 = 1 ∨ r.1 = 2) ∧ r.2 = v.board)
          ∨ ((r.1 = 0 ∨ r.1 = 3)
              ∧ ∃ p, v.board.get p = piece.B
                ∧ r.2 = (check_winner
                    (v.board.set p (if i % 2 = 0 then piece.O else piece.X)) v.x_turn).1))
      ∧ (∀ (v1 : RoundVars) (input input1 : List String) (out out1 : List Event),
          turn i v input out = Run.done v1 input1 out1 → v1.round_active = true →
          i + 1 < 9 →
          ∃ p, v.board.get p = piece.B
            ∧ v1.board = v.board.set p (if i % 2 = 0 then piece.O else piece.X)
            ∧ v1.x_turn = !v.x_turn
            ∧ v1.board.cells.countP (fun c => decide (c ≠ piece.B)) = i + 1)
      ∧ (∀ (is : List Nat) (line : String) (rest : List String) (out : List Event),
          i ≠ 8 → line = "r" ∨ line = "R" →
          round_loop (i :: is) v (line :: rest) out
            = Run.done { v with round_active := false, x_turn := !v.x_turn } rest
                (out ++ show_turn v.board v.x_turn PromptVars.init
                  ++ [Event.getline line])))
    ∧ (∀ (ms : List (String × position)) (rest : List String) (out : List Event),
      quiet_moves emptyBoard false ms → ms.length ≤ 8 →
      round true (ms.map Prod.fst ++ rest) out
        = round_loop (List.range' ms.length (9 - ms.length))
            { board := after_moves emptyBoard false ms,
              x_turn := decide (ms.length % 2 = 1),
              round_active := true, winner := false, game_active := true }
            rest (out ++ moves_trace emptyBoard false ms)
      ∧ ∀ (j : Nat) (mv : String × position), ms[j]? = some mv →
          (after_moves emptyBoard false ms).get mv.2
            = if j % 2 = 0 then piece.O else piece.X)
    ∧ (∀ (n : Nat) (input : List String) (out : List Event),
        ∃ tail, (game_loop (n + 1) true input out).output
          = out ++ [Event.clear, Event.printBoard emptyBoard, Event.turnPrompt false] ++ tail)
    ∧ (∀ (n : Nat) (input input1 : List String) (out out1 : List Event) (v : RoundVars),
        round true input out = Run.done v input1 out1 →
        game_loop (n + 1) true input out = game_loop n v.game_active input1 out1)
    ∧ (new_round true).x_turn = false ∧ (new_round true).board = emptyBoard := by
  refine ⟨?_, ?_, game_loop_shows, ?_, rfl, rfl⟩
  · intro i v h
    obtain ⟨hact, hw, _, _, _, hcnt, _, _, _, hturn⟩ := turn_start_invariant h
    have hpar : v.x_turn = false ↔ i % 2 = 0 := by
      rw [hturn]
      simp only [decide_eq_false_iff_not]
      omega
    have hpiece : players_piece v.x_turn = if i % 2 = 0 then piece.O else piece.X := by
      by_cases hi : i % 2 = 0
      · rw [if_pos hi, hpar.mpr hi]; rfl
      · have hx : v.x_turn = true := by
          cases hv : v.x_turn with
          | false => exact absurd (hpar.mp hv) hi
          | true => rfl
        rw [if_neg hi, hx]; rfl
    refine ⟨hcnt, hpar, ?_, ?_, ?_, ?_⟩
    · intro line p rest s out href hb hs h0
      rw [← hpiece]
      exact ⟨_, prompt_loop_place v.board v.x_turn line p rest s out href hb hs h0⟩
    · intro input input1 out out1 r hrun
      rw [← hpiece]
      rcases prompt_loop_outcome v.board v.x_turn input PromptVars.init out r input1 out1
        rfl rfl hrun with hr | hr | ⟨p, hb, hr⟩
      · exact Or.inl ⟨Or.inr (by rw [hr]), by rw [hr]⟩
      · exact Or.inl ⟨Or.inl (by rw [hr]), by rw [hr]⟩
      · refine Or.inr ⟨?_, p, hb, by rw [hr]⟩
        rw [hr]
        by_cases hwin :
            (check_winner (v.board.set p (players_piece v.x_turn)) v.x_turn).2 = true
        · exact Or.inr (by simp [hwin])
        · exact Or.inl (by simp [hwin])
    · intro v1 input input1 out out1 hrun hact1 hi
      obtain ⟨p, hb, _, hv1⟩ :=
        turn_continues i v v1 input input1 out out1 hw (by omega) hrun hact1
      refine ⟨p, hb, ?_, ?_, ?_⟩
      · rw [hv1, ← hpiece]
      · rw [hv1]
      · rw [hv1]
        simp only
        rw [countP_place_hit v.board p (players_piece v.x_turn)
          (fun c => decide (c ≠ piece.B)) hb rfl
          (by simpa using players_piece_ne_blank v.x_turn), hcnt]
    · intro is line rest out hi hline
      exact round_loop_restart_early i is v line rest out hi hact hw hline
  · intro ms rest out hq hlen
    have hidx : [0, 1, 2, 3, 4, 5, 6, 7, 8]
        = List.range' 0 (ms.length + (9 - ms.length)) := by
      have : ms.length + (9 - ms.length) = 9 := by omega
      rw [this]; rfl
    have hstep := round_loop_quiet ms 0 (9 - ms.length) (new_round true) rest out
      (by omega) rfl rfl hq
    have hboard : (new_round true).board = emptyBoard := rfl
    have hx : (new_round true).x_turn = false := rfl
    have hta : turn_after false ms.length = decide (ms.length % 2 = 1) := by
      rw [turn_after_parity]
      by_cases hn : ms.length % 2 = 0
      · have h1 : ¬ ms.length % 2 = 1 := by omega
        simp [hn]
      · have h1 : ms.length % 2 = 1 := by omega
        simp [h1]
    rw [hboard, hx, hta, Nat.zero_add] at hstep
    refine ⟨?_, ?_⟩
    · unfold round
      rw [hidx, hstep]
      rfl
    · intro j mv hj
      rw [after_moves_get ms emptyBoard false j mv hq hj, turn_after_parity]
      by_cases hn : j % 2 = 0
      · rw [if_pos hn, if_pos hn]; rfl
      · rw [if_neg hn, if_neg hn]; rfl
  · intro n input input1 out out1 v hrun
    simp only [game_loop, if_true, hrun]

/-- C12 (witness): the ninth turn after a2, b2, a3, b3, b1, c2, c1, c3 starts
with eight marked cells and belongs to O, whose answer `a1` writes O. -/
theorem C12_alternate_from_O_witness :
    TurnStart 8 ninthTurnTwoLines
    ∧ ninthTurnTwoLines.board.cells.countP (fun c => decide (c ≠ piece.B)) = 8
    ∧ (ninthTurnTwoLines.x_turn = false ↔ 8 % 2 = 0)
    ∧ ∃ st, prompt_loop ninthTurnTwoLines.board ninthTurnTwoLines.x_turn ("a1" :: ["q"])
          PromptVars.init []
        = Run.done
            (st, (check_winner
              (ninthTurnTwoLines.board.set .a1 (if 8 % 2 = 0 then piece.O else piece.X))
              ninthTurnTwoLines.x_turn).1)
            ["q"]
            ([] ++ show_turn ninthTurnTwoLines.board ninthTurnTwoLines.x_turn PromptVars.init
              ++ [Event.getline "a1"]) :=
  ⟨ninthTurnTwoLines_start,
    (C12_alternate_from_O.1 8 ninthTurnTwoLines ninthTurnTwoLines_start).1,
    (C12_alternate_from_O.1 8 ninthTurnTwoLines ninthTurnTwoLines_start).2.1,
    (C12_alternate_from_O.1 8 ninthTurnTwoLines ninthTurnTwoLines_start).2.2.1 "a1" .a1 ["q"]
      PromptVars.init [] (by decide) rfl rfl rfl⟩

/-- C13: from the empty board with O to move, the answers B2, A1, A2, C3, C2
end their turns with exit status 0, 0, 0, 0 and 3; the round ends with the
winner flag set and O still the player of the turn, the banner names O, the
cells a2, b2, c2 (indices 1, 4, 7) hold the highlighted O, a1 and c3 hold the
plain X, and the other four cells are blank. -/
theorem C13_middle_column_scenario :
    (prompt_input emptyBoard false ["B2"] []).result
      = some (0, ⟨.B, .B, .B, .B, .O, .B, .B, .B, .B⟩)
    ∧ (prompt_input ⟨.B, .B, .B, .B, .O, .B, .B, .B, .B⟩ true ["A1"] []).result
      = some (0, ⟨.X, .B, .B, .B, .O, .B, .B, .B, .B⟩)
    ∧ (prompt_input ⟨.X, .B, .B, .B, .O, .B, .B, .B, .B⟩ false ["A2"] []).result
      = some (0, ⟨.X, .O, .B, .B, .O, .B, .B, .B, .B⟩)
    ∧ (prompt_input ⟨.X, .O, .B, .B, .O, .B, .B, .B, .B⟩ true ["C3"] []).result
      = some (0, ⟨.X, .O, .B, .B, .O, .B, .B, .B, .X⟩)
    ∧ (prompt_input ⟨.X, .O, .B, .B, .O, .B, .B, .B, .X⟩ false ["C2"] []).result
      = some (3, ⟨.X, .OW, .B, .B, .OW, .B, .B, .OW, .X⟩)
    ∧ (round true ["B2", "A1", "A2", "C3", "C2", "q"] []).result
      = some { board := ⟨.X, .OW, .B, .B, .OW, .B, .B, .OW, .X⟩, x_turn := false,
               round_active := false, winner := true, game_active := false }
    ∧ (round true ["B2", "A1", "A2", "C3", "C2", "q"] []).output.drop 20
      = [Event.clear, Event.wins false,
          Event.printBoard ⟨.X, .OW, .B, .B, .OW, .B, .B, .OW, .X⟩,
          Event.continuePrompt, Event.getline "q"]
    ∧ position.a2.toNat = 1 ∧ position.b2.toNat = 4 ∧ position.c2.toNat = 7 := by
  decide!

/-- C14: whenever `prompt_input` returns, either it returns 1 or 2 and the
board is as given (no piece was placed), or the mover's piece was placed on a
blank cell and the value returned is 3 when, with that piece on the board, the
mover holds a line of `win_combinations`, and 0 when not. -/
theorem C14_placement_outcome (board : Board) (x_turn : Bool) (input input1 : List String)
    (out out1 : List Event) (r : Nat × Board)
    (hrun : prompt_input board x_turn input out = Run.done r input1 out1) :
    ((r.1 = 1 ∨ r.1 = 2) ∧ r.2 = board)
    ∨ ∃ p, board.get p = piece.B
        ∧ r.2 = (check_winner (board.set p (players_piece x_turn)) x_turn).1
        ∧ ((r.1 = 3 ∧ ∃ c ∈ win_combinations,
              holds (board.set p (players_piece x_turn)) (players_piece x_turn) c)
          ∨ (r.1 = 0 ∧ ¬ ∃ c ∈ win_combinations,
              holds (board.set p (players_piece x_turn)) (players_piece x_turn) c)) := by
  rcases prompt_loop_outcome board x_turn input PromptVars.init out r input1 out1 rfl rfl hrun
    with hr | hr | ⟨p, hb, hr⟩
  · exact Or.inl ⟨Or.inr (by rw [hr]), by rw [hr]⟩
  · exact Or.inl ⟨Or.inl (by rw [hr]), by rw [hr]⟩
  · refine Or.inr ⟨p, hb, by rw [hr], ?_⟩
    by_cases hw : (check_winner (board.set p (players_piece x_turn)) x_turn).2 = true
    · exact Or.inl ⟨by rw [hr]; simp [hw], (check_winner_true_iff _ _).mp hw⟩
    · exact Or.inr ⟨by rw [hr]; simp [hw], fun hex => hw ((check_winner_true_iff _ _).mpr hex)⟩

/-- C14 (witness): O answers `C2` with a2 and b2 already held. -/
theorem C14_placement_outcome_witness :
    prompt_input beforeMiddleColumn false ["C2"] []
      = Run.done (3, afterMiddleColumn) []
          [Event.clear, Event.printBoard beforeMiddleColumn, Event.turnPrompt false,
            Event.getline "C2"]
    ∧ (((3 = 1 ∨ 3 = 2) ∧ afterMiddleColumn = beforeMiddleColumn)
      ∨ ∃ p, beforeMiddleColumn.get p = piece.B
        ∧ afterMiddleColumn
          = (check_winner (beforeMiddleColumn.set p (players_piece false)) false).1
        ∧ ((3 = 3 ∧ ∃ c ∈ win_combinations,
              holds (beforeMiddleColumn.set p (players_piece false)) (players_piece false) c)
          ∨ (3 = 0 ∧ ¬ ∃ c ∈ win_combinations,
              holds (beforeMiddleColumn.set p (players_piece false))
                (players_piece false) c))) :=
  ⟨by decide,
    C14_placement_outcome beforeMiddleColumn false ["C2"] [] []
      [Event.clear, Event.printBoard beforeMiddleColumn, Event.turnPrompt false,
        Event.getline "C2"]
      (3, afterMiddleColumn) (by decide)⟩

/-- A turn in which `prompt_input` returns 3 ends the round loop: the winner
flag is set, the player of the turn is kept, and the winner's screen follows. -/
theorem round_loop_win (i : Nat) (is : List Nat) (v : RoundVars) (input input1 : List String)
    (out out1 : List Event) (b1 : Board) (hact : v.round_active = true)
    (hwin : prompt_input v.board v.x_turn input out = Run.done (3, b1) input1 out1) :
    round_loop (i :: is) v input out
      = Run.done
          { v with board := b1, round_active := false, winner := true,
                   game_active :=
                     if (getline input1).1 = "q" ∨ (getline input1).1 = "Q" then false
                     else true }
          (getline input1).2
          (out1 ++ [Event.clear, Event.wins v.x_turn, Event.printBoard b1,
            Event.continuePrompt, Event.getline (getline input1).1]) := by
  have ht : turn i v input out
      = Run.done
          { v with board := b1, round_active := false, winner := true,
                   game_active :=
                     if (getline input1).1 = "q" ∨ (getline input1).1 = "Q" then false
                     else true }
          (getline input1).2
          (out1 ++ [Event.clear, Event.wins v.x_turn, Event.printBoard b1,
            Event.continuePrompt, Event.getline (getline input1).1]) := by
    unfold turn
    rw [hwin]
    simp [on_status, end_game_prompt]
  rw [round_loop_step i is v input out hact, ht]
  exact round_loop_inactive is _ _ _ rfl

/-- C16: when `prompt_input` returns 3 in a turn of the round loop, the loop
ends with that turn: `winner` is set, `round_active` is cleared, `x_turn` is
the player of that turn, not flipped, and the next things shown are the banner
naming that player (X if `x_turn`, O otherwise), the board and the
end-of-round prompt. -/
theorem C16_win_ends_round (i : Nat) (is : List Nat) (v : RoundVars)
    (input input1 : List String) (out out1 : List Event) (b1 : Board)
    (hact : v.round_active = true)
    (hwin : prompt_input v.board v.x_turn input out = Run.done (3, b1) input1 out1) :
    round_loop (i :: is) v input out
      = Run.done
          { board := b1, x_turn := v.x_turn, round_active := false, winner := true,
            game_active :=
              if (getline input1).1 = "q" ∨ (getline input1).1 = "Q" then false else true }
          (getline input1).2
          (out1 ++ [Event.clear, Event.wins v.x_turn, Event.printBoard b1,
            Event.continuePrompt, Event.getline (getline input1).1]) :=
  round_loop_win i is v input input1 out out1 b1 hact hwin

/-- C16 (witness): X completes the top row in the turn with loop index 5, with
three loop indices still to come. -/
theorem C16_win_ends_round_witness :
    prompt_input ⟨.X, .X, .B, .O, .O, .B, .B, .B, .O⟩ true ["a3", "x"] []
      = Run.done (3, ⟨.XW, .XW, .XW, .O, .O, .B, .B, .B, .O⟩) ["x"]
          [Event.clear, Event.printBoard ⟨.X, .X, .B, .O, .O, .B, .B, .B, .O⟩,
            Event.turnPrompt true, Event.getline "a3"]
    ∧ round_loop (5 :: [6, 7, 8])
        ⟨⟨.X, .X, .B, .O, .O, .B, .B, .B, .O⟩, true, true, false, true⟩ ["a3", "x"] []
      = Run.done
          { board := ⟨.XW, .XW, .XW, .O, .O, .B, .B, .B, .O⟩, x_turn := true,
            round_active := false, winner := true,
            game_active :=
              if (getline ["x"]).1 = "q" ∨ (getline ["x"]).1 = "Q" then false else true }
          (getline ["x"]).2
          ([Event.clear, Event.printBoard ⟨.X, .X, .B, .O, .O, .B, .B, .B, .O⟩,
              Event.turnPrompt true, Event.getline "a3"]
            ++ [Event.clear, Event.wins true,
              Event.printBoard ⟨.XW, .XW, .XW, .O, .O, .B, .B, .B, .O⟩,
              Event.continuePrompt, Event.getline (getline ["x"]).1]) :=
  ⟨by decide,
    C16_win_ends_round 5 [6, 7, 8]
      ⟨⟨.X, .X, .B, .O, .O, .B, .B, .B, .O⟩, true, true, false, true⟩ ["a3", "x"] ["x"] []
      [Event.clear, Event.printBoard ⟨.X, .X, .B, .O, .O, .B, .B, .B, .O⟩,
        Event.turnPrompt true, Event.getline "a3"]
      ⟨.XW, .XW, .XW, .O, .O, .B, .B, .B, .O⟩ rfl (by decide)⟩

theorem marked_le_of_blank (board : Board) (p : position) (hb : board.get p = piece.B) :
    board.cells.countP (fun c => decide (c ≠ piece.B)) ≤ 8 := by
  by_contra hgt
  have hle : board.cells.countP (fun c => decide (c ≠ piece.B)) ≤ board.cells.length :=
    List.countP_le_length _
  rw [cells_length] at hle
  exact no_blank board (by omega) p hb

/-- A sequence of placements without a line followed by one more placement
has at most nine placements, and the round returns right after the last one
when it completes a line or is the ninth. -/
theorem round_ends_by_ninth (ms : List (String × position)) (m : String × position)
    (rest : List String) (out : List Event)
    (hq : quiet_moves emptyBoard false ms) (href : cell_reference m.1 m.2)
    (hb : (after_moves emptyBoard false ms).get m.2 = piece.B) :
    ms.length + 1 ≤ 9
    ∧ ((check_winner
          ((after_moves emptyBoard false ms).set m.2
            (players_piece (turn_after false ms.length)))
          (turn_after false ms.length)).2 = true
        ∨ ms.length + 1 = 9 →
      ∃ v out1, round true (ms.map Prod.fst ++ m.1 :: rest) out
          = Run.done v (getline rest).2 out1
        ∧ v.board = (check_winner
            ((after_moves emptyBoard false ms).set m.2
              (players_piece (turn_after false ms.length)))
            (turn_after false ms.length)).1) := by
  have hcount := after_moves_marked ms emptyBoard false hq
  have hle := marked_le_of_blank _ m.2 hb
  have hzero : emptyBoard.cells.countP (fun c => decide (c ≠ piece.B)) = 0 := rfl
  rw [hcount, hzero] at hle
  refine ⟨by omega, ?_⟩
  intro hend
  by_cases hwin : (check_winner
      ((after_moves emptyBoard false ms).set m.2 (players_piece (turn_after false ms.length)))
      (turn_after false ms.length)).2 = true
  · have hidx : [0, 1, 2, 3, 4, 5, 6, 7, 8]
        = List.range' 0 (ms.length + ((8 - ms.length) + 1)) := by
      have : ms.length + ((8 - ms.length) + 1) = 9 := by omega
      rw [this]; rfl
    have hstep := round_loop_quiet ms 0 ((8 - ms.length) + 1) (new_round true)
      (m.1 :: rest) out (by omega) rfl rfl hq
    have hboard : (new_round true).board = emptyBoard := rfl
    have hx : (new_round true).x_turn = false := rfl
    rw [hboard, hx] at hstep
    have hp := prompt_input_place (after_moves emptyBoard false ms)
      (turn_after false ms.length) m.1 m.2 rest
      (out ++ moves_trace emptyBoard false ms) href hb
    rw [hwin, if_pos rfl] at hp
    unfold round
    rw [hidx, hstep, List.range'_succ]
    exact ⟨_, _, round_loop_win _ _
      { new_round true with board := after_moves emptyBoard false ms,
                            x_turn := turn_after false ms.length }
      _ _ _ _ _ rfl hp, rfl⟩
  · have hquiet : (check_winner
        ((after_moves emptyBoard false ms).set m.2
          (players_piece (turn_after false ms.length)))
        (turn_after false ms.length)).2 = false := by simpa using hwin
    have hlen : ms.length = 8 := by
      rcases hend with h | h
      · exact absurd h hwin
      · omega
    have hq9 : quiet_moves emptyBoard false (ms ++ [m]) :=
      (quiet_moves_append ms emptyBoard false [m]).mpr ⟨hq, href, hb, hquiet, trivial⟩
    have key := round_nine_quiet ms m rest out hlen hq9
    simp only [List.map_append, List.map_cons, List.map_nil, List.append_assoc,
      List.singleton_append] at key
    refine ⟨_, _, key, ?_⟩
    simp only [after_moves_append, after_moves]
    rw [check_winner_keep _ _ hquiet]

/-- After the turn with loop index 8 the round loop does nothing more. -/
theorem round_loop_last (v : RoundVars) (input : List String) (out : List Event)
    (hact : v.round_active = true) :
    round_loop [8] v input out = turn 8 v input out := by
  rw [round_loop_step 8 [] v input out hact]
  cases turn 8 v input out <;> simp [round_loop]

/-- C15: take any sequence of answers that place pieces on blank cells by
alternating players from the empty board without a line, followed by one more
cell reference to a blank cell.  These are at most nine placements, and if the
last one completes a line or is the ninth, the round returns right after it:
the only line read after it is the answer to the end-of-round prompt, so no
tenth turn is taken.  More generally, whatever lines are rejected in between:
the body of the round loop is entered only with a loop index of at most 8 and
with as many marked cells as the loop index, and after the turn with loop
index 8 the round loop takes no further turn. -/
theorem C15_at_most_nine_placements :
    (∀ (ms : List (String × position)) (m : String × position) (rest : List String)
        (out : List Event),
      quiet_moves emptyBoard false ms → cell_reference m.1 m.2 →
      (after_moves emptyBoard false ms).get m.2 = piece.B →
      ms.length + 1 ≤ 9
      ∧ ((check_winner
            ((after_moves emptyBoard false ms).set m.2
              (players_piece (turn_after false ms.length)))
            (turn_after false ms.length)).2 = true
          ∨ ms.length + 1 = 9 →
        ∃ v out1, round true (ms.map Prod.fst ++ m.1 :: rest) out
            = Run.done v (getline rest).2 out1
          ∧ v.board = (check_winner
              ((after_moves emptyBoard false ms).set m.2
                (players_piece (turn_after false ms.length)))
              (turn_after false ms.length)).1))
    ∧ (∀ (i : Nat) (v : RoundVars), TurnStart i v →
        i ≤ 8 ∧ v.board.cells.countP (fun c => decide (c ≠ piece.B)) = i)
    ∧ (∀ (v : RoundVars) (input : List String) (out : List Event), TurnStart 8 v →
        round_loop [8] v input out = turn 8 v input out) := by
  refine ⟨fun ms m rest out hq href hb => round_ends_by_ninth ms m rest out hq href hb,
    ?_, ?_⟩
  · intro i v hstart
    obtain ⟨_, _, _, hle, _, hcnt, _⟩ := turn_start_invariant hstart
    exact ⟨hle, hcnt⟩
  · intro v input out hstart
    obtain ⟨hact, _⟩ := turn_start_invariant hstart
    exact round_loop_last v input out hact

/-- C15 (witness): the ninth answer of `tieMoves` after its first eight. -/
theorem C15_at_most_nine_placements_witness :
    quiet_moves emptyBoard false (tieMoves.take 8)
    ∧ cell_reference "c3" .c3
    ∧ (after_moves emptyBoard false (tieMoves.take 8)).get .c3 = piece.B
    ∧ (tieMoves.take 8).length + 1 ≤ 9
    ∧ ((check_winner
          ((after_moves emptyBoard false (tieMoves.take 8)).set .c3
            (players_piece (turn_after false (tieMoves.take 8).length)))
          (turn_after false (tieMoves.take 8).length)).2 = true
        ∨ (tieMoves.take 8).length + 1 = 9 →
      ∃ v out1, round true ((tieMoves.take 8).map Prod.fst ++ "c3" :: ["x", "a1"]) []
          = Run.done v (getline ["x", "a1"]).2 out1
        ∧ v.board = (check_winner
            ((after_moves emptyBoard false (tieMoves.take 8)).set .c3
              (players_piece (turn_after false (tieMoves.take 8).length)))
            (turn_after false (tieMoves.take 8).length)).1) :=
  ⟨by decide!, by decide, by decide!,
    C15_at_most_nine_placements.1 (tieMoves.take 8) ("c3", .c3) ["x", "a1"] []
      (by decide!) (by decide) (by decide!)⟩

/-! ## Cells over a turn -/

/-- A cell after `check_winner` holds what it held, or it held the mover's
piece and now holds the mover's winning piece. -/
theorem check_winner_cell (board : Board) (x_turn : Bool) (q : position) :
    (check_winner board x_turn).1.get q = board.get q
    ∨ (board.get q = players_piece x_turn
        ∧ (check_winner board x_turn).1.get q = winning_piece x_turn) := by
  by_cases hex : ∃ c ∈ win_combinations, holds board (players_piece x_turn) c
  · obtain ⟨pre, c, post, hl, hpre, hc⟩ :=
      split_first (holds board (players_piece x_turn)) win_combinations hex
    have key := check_loop_first (players_piece x_turn) (winning_piece x_turn) pre post c
      board hpre hc
    have hcw : check_winner board x_turn
        = (((board.set c.1 (winning_piece x_turn)).set c.2.1 (winning_piece x_turn)).set
            c.2.2 (winning_piece x_turn), true) := by
      simp only [check_winner, players_piece, winning_piece] at key ⊢
      rw [hl, key]
    rw [hcw]
    simp only [get_marked]
    by_cases hon : onLine q c
    · right
      rw [if_pos hon]
      refine ⟨?_, rfl⟩
      rcases hon with h | h | h
      · rw [h]; exact hc.1
      · rw [h]; exact hc.2.1
      · rw [h]; exact hc.2.2
    · left
      rw [if_neg hon]
  · left
    have hflag : (check_winner board x_turn).2 = false := by
      cases hf : (check_winner board x_turn).2 with
      | false => rfl
      | true => exact absurd ((check_winner_true_iff board x_turn).mp hf) hex
    rw [check_winner_keep board x_turn hflag]

theorem on_status_board (status : Nat) (v : RoundVars) :
    (on_status status v).board = v.board := by
  unfold on_status
  split <;> rfl

/-- The board a turn leaves is the board `prompt_input` left. -/
theorem turn_board (i : Nat) (v v1 : RoundVars) (input input1 : List String)
    (out out1 : List Event) (hrun : turn i v input out = Run.done v1 input1 out1) :
    ∃ r input0 out0, prompt_input v.board v.x_turn input out = Run.done r input0 out0
      ∧ v1.board = r.2 := by
  unfold turn at hrun
  cases hp : prompt_input v.board v.x_turn input out with
  | starved o => rw [hp] at hrun; cases hrun
  | fuel o => rw [hp] at hrun; cases hrun
  | done r input0 out0 =>
    rw [hp] at hrun
    refine ⟨r, input0, out0, rfl, ?_⟩
    simp only at hrun
    split_ifs at hrun
    · injection hrun with hv _ _
      rw [← hv]
      exact on_status_board r.1 _
    · injection hrun with hv _ _
      rw [← hv]
      exact on_status_board r.1 _

theorem owner_players_piece (x_turn : Bool) : owner (players_piece x_turn) = some x_turn := by
  cases x_turn <;> rfl

theorem owner_winning_piece (x_turn : Bool) : owner (winning_piece x_turn) = some x_turn := by
  cases x_turn <;> rfl

/-- C17: over any turn that returns, a cell that was not blank keeps its
owner, a cell holding O holds O or OW afterwards and a cell holding X holds X
or XW, and either the board is unchanged or exactly one blank cell, the one the
mover placed on, has become a mark of the mover while every other blank cell
is still blank. -/
theorem C17_marks_persist (i : Nat) (v v1 : RoundVars) (input input1 : List String)
    (out out1 : List Event) (hrun : turn i v input out = Run.done v1 input1 out1) :
    (∀ q, v.board.get q ≠ piece.B → owner (v1.board.get q) = owner (v.board.get q))
    ∧ (∀ q, v.board.get q = piece.O →
        v1.board.get q = piece.O ∨ v1.board.get q = piece.OW)
    ∧ (∀ q, v.board.get q = piece.X →
        v1.board.get q = piece.X ∨ v1.board.get q = piece.XW)
    ∧ (v1.board = v.board
      ∨ ∃ p, v.board.get p = piece.B ∧ owner (v1.board.get p) = some v.x_turn
          ∧ ∀ q, q ≠ p → v.board.get q = piece.B → v1.board.get q = piece.B) := by
  obtain ⟨r, input0, out0, hp, hboard⟩ := turn_board i v v1 input input1 out out1 hrun
  have hsame : r.2 = v.board
      ∨ ∃ p, v.board.get p = piece.B
          ∧ r.2 = (check_winner (v.board.set p (players_piece v.x_turn)) v.x_turn).1 := by
    rcases prompt_loop_outcome v.board v.x_turn input PromptVars.init out r input0 out0
      rfl rfl hp with hr | hr | ⟨p, hb, hr⟩
    · exact Or.inl (by rw [hr])
    · exact Or.inl (by rw [hr])
    · exact Or.inr ⟨p, hb, by rw [hr]⟩
  rcases hsame with hr | ⟨p, hb, hr⟩
  · rw [hr] at hboard
    rw [hboard]
    exact ⟨fun _ _ => rfl, fun _ h => Or.inl h, fun _ h => Or.inl h, Or.inl rfl⟩
  · rw [hr] at hboard
    have hcell : ∀ q, q ≠ p →
        v1.board.get q = v.board.get q
        ∨ (v.board.get q = players_piece v.x_turn
            ∧ v1.board.get q = winning_piece v.x_turn) := by
      intro q hq
      have := check_winner_cell (v.board.set p (players_piece v.x_turn)) v.x_turn q
      rw [← hboard, Board.get_set, if_neg hq] at this
      exact this
    have hne : ∀ q, v.board.get q ≠ piece.B → q ≠ p := by
      intro q hq hqp
      rw [hqp] at hq
      exact hq hb
    refine ⟨?_, ?_, ?_, Or.inr ⟨p, hb, ?_, ?_⟩⟩
    · intro q hq
      rcases hcell q (hne q hq) with h | ⟨h1, h2⟩
      · rw [h]
      · rw [h1, h2, owner_players_piece, owner_winning_piece]
    · intro q hq
      rcases hcell q (hne q (by rw [hq]; decide)) with h | ⟨h1, h2⟩
      · exact Or.inl (by rw [h, hq])
      · right
        rw [h2]
        rw [hq] at h1
        cases hx : v.x_turn with
        | false => rfl
        | true => rw [hx] at h1; cases h1
    · intro q hq
      rcases hcell q (hne q (by rw [hq]; decide)) with h | ⟨h1, h2⟩
      · exact Or.inl (by rw [h, hq])
      · right
        rw [h2]
        rw [hq] at h1
        cases hx : v.x_turn with
        | false => rw [hx] at h1; cases h1
        | true => rfl
    · have := check_winner_cell (v.board.set p (players_piece v.x_turn)) v.x_turn p
      rw [← hboard, Board.get_set, if_pos rfl] at this
      rcases this with h | ⟨_, h⟩
      · rw [h, owner_players_piece]
      · rw [h, owner_winning_piece]
    · intro q hq hblank
      rcases hcell q hq with h | ⟨h1, _⟩
      · rw [h, hblank]
      · rw [hblank] at h1
        exact absurd h1.symm (players_piece_ne_blank v.x_turn)

/-- C17 (witness): O completes the middle column on `beforeMiddleColumn`. -/
theorem C17_marks_persist_witness :
    turn 4 ⟨beforeMiddleColumn, false, true, false, true⟩ ["C2", "x"] []
      = Run.done ⟨afterMiddleColumn, false, false, true, true⟩ []
          [Event.clear, Event.printBoard beforeMiddleColumn, Event.turnPrompt false,
            Event.getline "C2", Event.clear, Event.wins false,
            Event.printBoard afterMiddleColumn, Event.continuePrompt, Event.getline "x"]
    ∧ (∀ q, beforeMiddleColumn.get q ≠ piece.B →
        owner (afterMiddleColumn.get q) = owner (beforeMiddleColumn.get q))
    ∧ (∀ q, beforeMiddleColumn.get q = piece.O →
        afterMiddleColumn.get q = piece.O ∨ afterMiddleColumn.get q = piece.OW)
    ∧ (∀ q, beforeMiddleColumn.get q = piece.X →
        afterMiddleColumn.get q = piece.X ∨ afterMiddleColumn.get q = piece.XW)
    ∧ (afterMiddleColumn = beforeMiddleColumn
      ∨ ∃ p, beforeMiddleColumn.get p = piece.B
          ∧ owner (afterMiddleColumn.get p) = some false
          ∧ ∀ q, q ≠ p → beforeMiddleColumn.get q = piece.B →
              afterMiddleColumn.get q = piece.B) :=
  ⟨by decide,
    C17_marks_persist 4 ⟨beforeMiddleColumn, false, true, false, true⟩
      ⟨afterMiddleColumn, false, false, true, true⟩ ["C2", "x"] [] []
      [Event.clear, Event.printBoard beforeMiddleColumn, Event.turnPrompt false,
        Event.getline "C2", Event.clear, Event.wins false,
        Event.printBoard afterMiddleColumn, Event.continuePrompt, Event.getline "x"]
      (by decide)⟩

/-! ## The end of a round -/

/-- C18: `end_game_prompt` returns false exactly when the line it reads is `q`
or `Q`, and it reads that one line only; the empty line, `q` followed by a
blank, and the end of the input all give true; and when it gives true the
game loop goes on with a new round, which opens with the empty board and the
turn prompt for O. -/
theorem C18_end_game_prompt (board : Board) (winner x_turn : Bool) (line : String)
    (rest : List String) (out : List Event) :
    ((end_game_prompt board winner x_turn (line :: rest) out).1 = false
        ↔ (line = "q" ∨ line = "Q"))
    ∧ (end_game_prompt board winner x_turn (line :: rest) out).2.1 = rest
    ∧ (end_game_prompt board winner x_turn ("" :: rest) out).1 = true
    ∧ (end_game_prompt board winner x_turn ("q " :: rest) out).1 = true
    ∧ (end_game_prompt board winner x_turn [] out).1 = true
    ∧ (¬ (line = "q" ∨ line = "Q") → ∀ n : Nat,
        ∃ tail,
          (game_loop (n + 1) (end_game_prompt board winner x_turn (line :: rest) out).1
              (end_game_prompt board winner x_turn (line :: rest) out).2.1
              (end_game_prompt board winner x_turn (line :: rest) out).2.2).output
            = (end_game_prompt board winner x_turn (line :: rest) out).2.2
              ++ [Event.clear, Event.printBoard emptyBoard, Event.turnPrompt false]
              ++ tail) := by
  have hiff : (end_game_prompt board winner x_turn (line :: rest) out).1 = false
      ↔ (line = "q" ∨ line = "Q") := by
    simp only [end_game_prompt, getline]
    by_cases hq : line = "q" ∨ line = "Q"
    · simp [hq]
    · simp [hq]
  refine ⟨hiff, rfl, rfl, rfl, rfl, ?_⟩
  intro hq n
  have htrue : (end_game_prompt board winner x_turn (line :: rest) out).1 = true := by
    cases hv : (end_game_prompt board winner x_turn (line :: rest) out).1 with
    | false => exact absurd (hiff.mp hv) hq
    | true => rfl
  rw [htrue]
  exact game_loop_shows n _ _

/-- C18 (witness): the answer `x` after a tie on a full board. -/
theorem C18_end_game_prompt_witness :
    ¬ (("x" : String) = "q" ∨ ("x" : String) = "Q")
    ∧ ∃ tail,
        (game_loop (0 + 1)
            (end_game_prompt (after_moves emptyBoard false tieMoves) false false
              ("x" :: ["q"]) []).1
            (end_game_prompt (after_moves emptyBoard false tieMoves) false false
              ("x" :: ["q"]) []).2.1
            (end_game_prompt (after_moves emptyBoard false tieMoves) false false
              ("x" :: ["q"]) []).2.2).output
          = (end_game_prompt (after_moves emptyBoard false tieMoves) false false
              ("x" :: ["q"]) []).2.2
            ++ [Event.clear, Event.printBoard emptyBoard, Event.turnPrompt false]
            ++ tail :=
  ⟨by decide,
    (C18_end_game_prompt (after_moves emptyBoard false tieMoves) false false "x" ["q"]
      []).2.2.2.2.2 (by decide) 0⟩

/-- C20: on the turn with loop index 8 of a round, whatever value `prompt_input`
returns, the round loop ends with the end-of-round screen (the winner's banner
when the value is 3, the tie banner otherwise) and one more read, and
`game_active` is set from that answer alone: after `q` or `Q` at the ninth
turn prompt and an answer other than `q` and `Q` to the end-of-round prompt,
`game_active` is true and the game loop starts a new round. -/
theorem C20_ninth_turn_end_prompt (v : RoundVars) (input input1 : List String)
    (out out1 : List Event) (r : Nat × Board) (hstart : TurnStart 8 v)
    (hrun : prompt_input v.board v.x_turn input out = Run.done r input1 out1) :
    round_loop [8] v input out
      = Run.done
          { board := r.2, x_turn := v.x_turn, round_active := decide (r.1 = 0),
            winner := decide (r.1 = 3),
            game_active :=
              if (getline input1).1 = "q" ∨ (getline input1).1 = "Q" then false else true }
          (getline input1).2
          (out1 ++ [Event.clear, if r.1 = 3 then Event.wins v.x_turn else Event.tie,
            Event.printBoard r.2, Event.continuePrompt, Event.getline (getline input1).1])
    ∧ (∀ (line resp : String) (rest : List String),
        line = "q" ∨ line = "Q" → ¬ (resp = "q" ∨ resp = "Q") →
        round_loop [8] v (line :: resp :: rest) out
          = Run.done
              { board := v.board, x_turn := v.x_turn, round_active := false, winner := false,
                game_active := true }
              rest
              (out ++ [Event.clear, Event.printBoard v.board, Event.turnPrompt v.x_turn,
                  Event.getline line]
                ++ [Event.clear, Event.tie, Event.printBoard v.board, Event.continuePrompt,
                  Event.getline resp])
        ∧ ∀ (n : Nat) (out2 : List Event),
            ∃ tail, (game_loop (n + 1) true rest out2).output
              = out2 ++ [Event.clear, Event.printBoard emptyBoard, Event.turnPrompt false]
                ++ tail) := by
  obtain ⟨hact, hw, _⟩ := turn_start_invariant hstart
  refine ⟨?_, ?_⟩
  · rw [round_loop_step 8 [] v input out hact,
      turn_ninth v input input1 out out1 r hw hact hrun]
    simp only [round_loop]
  · intro line resp rest hline hresp
    refine ⟨?_, fun n out2 => game_loop_shows n rest out2⟩
    have hp : prompt_input v.board v.x_turn (line :: resp :: rest) out
        = Run.done (2, v.board) (resp :: rest)
            (out ++ [Event.clear, Event.printBoard v.board, Event.turnPrompt v.x_turn,
              Event.getline line]) := by
      unfold prompt_input
      rw [prompt_loop_read v.board v.x_turn line _ PromptVars.init out rfl]
      rcases hline with rfl | rfl <;>
        simp [dispatch, prompt_loop_good, place, show_turn, PromptVars.init, reset_flags]
    rw [round_loop_step 8 [] v _ out hact,
      turn_ninth v _ _ out _ (2, v.board) hw hact hp]
    simp [round_loop, getline, hresp]

/-- C20 (witness): on the ninth turn after a2, b2, a3, b3, b1, c2, c1, c3 the
player answers `q` and then `x`. -/
theorem C20_ninth_turn_end_prompt_witness :
    TurnStart 8 ninthTurnTwoLines
    ∧ round_loop [8] ninthTurnTwoLines ("q" :: "x" :: ["a1"]) []
      = Run.done
          { board := ninthTurnTwoLines.board, x_turn := ninthTurnTwoLines.x_turn,
            round_active := false, winner := false, game_active := true }
          ["a1"]
          ([] ++ [Event.clear, Event.printBoard ninthTurnTwoLines.board,
              Event.turnPrompt ninthTurnTwoLines.x_turn, Event.getline "q"]
            ++ [Event.clear, Event.tie, Event.printBoard ninthTurnTwoLines.board,
              Event.continuePrompt, Event.getline "x"]) :=
  ⟨ninthTurnTwoLines_start,
    ((C20_ninth_turn_end_prompt ninthTurnTwoLines ["q", "x", "a1"] ["x", "a1"] []
      [Event.clear, Event.printBoard ninthTurnTwoLines.board,
        Event.turnPrompt ninthTurnTwoLines.x_turn, Event.getline "q"]
      (2, ninthTurnTwoLines.board) ninthTurnTwoLines_start (by decide)).2
      "q" "x" ["a1"] (Or.inl rfl) (by decide)).1⟩

end TicTacToe
